import Mathlib

/-!
# Verification of the claude-todo TODO-analysis pipeline

A shallow embedding, in Lean 4, of the core of the `claude-todo` repository:
the context TODO extractor (`OriginalTodoAnalyzer`), the multi-source
consolidation and re-prioritization logic (`EnhancedTodoAnalyzer`), the
grep-result and markdown extractors (`RepomixService.parseGrepResult`,
`MarkdownTodoParser.parseCheckboxTodo`), and the cleanup lifecycle manager
(`TodoLifecycleManager`).  JavaScript strings are modelled through `String`
(backed by `List Char`), JavaScript numbers used for confidences and
similarity scores through `ℚ`, regular-expression matching through explicit
character scanners that implement the semantics of the specific patterns
appearing in the source, and external MCP capabilities (repomix packing,
grep over a packed snapshot, tree-sitter queries, the file system) through
environment records of `Except`-valued oracles, mirroring which call sites
catch failures and which rethrow.
-/

namespace ClaudeTodo

/-! ## Character and string primitives (ASCII model of the JS operations) -/

/-- `\s` of the JS regexes and `trim`, restricted to the ASCII whitespace
that occurs in the analysed inputs. -/
def isWsChar (c : Char) : Bool :=
  c = ' ' || c = '\t' || c = '\n' || c = '\r'

/-- `\w` of the JS regexes: `[A-Za-z0-9_]`. -/
def isWordChar (c : Char) : Bool :=
  ('a' ≤ c && c ≤ 'z') || ('A' ≤ c && c ≤ 'Z') || ('0' ≤ c && c ≤ '9') || c = '_'

/-- ASCII model of `String.prototype.toLowerCase` on a single character. -/
def lowerChar (c : Char) : Char :=
  if 'A' ≤ c ∧ c ≤ 'Z' then Char.ofNat (c.toNat + 32) else c

/-- `toLowerCase` on a whole string. -/
def lowerStr (s : String) : String :=
  ⟨s.data.map lowerChar⟩

/-- JS `String.prototype.trim` (both ends) on the character list. -/
def trimWs (cs : List Char) : List Char :=
  ((cs.dropWhile isWsChar).reverse.dropWhile isWsChar).reverse

/-- JS `String.prototype.trim`. -/
def trimStr (s : String) : String :=
  ⟨trimWs s.data⟩

/-- The trailing half of `trim`. -/
def dropTrailingWs (cs : List Char) : List Char :=
  (cs.reverse.dropWhile isWsChar).reverse

/-- Does `sub` occur as a prefix of `l` (character-exact)? -/
def listIsPrefix : List Char → List Char → Bool
  | [], _ => true
  | _ :: _, [] => false
  | a :: as, b :: bs => a = b && listIsPrefix as bs

/-- Does `sub` occur contiguously inside `l`?  Model of JS
`String.prototype.includes`. -/
def listContainsSub (sub : List Char) : List Char → Bool
  | [] => listIsPrefix sub []
  | c :: rest => listIsPrefix sub (c :: rest) || listContainsSub sub rest

/-- JS `s.includes(sub)`. -/
def strContains (s sub : String) : Bool :=
  listContainsSub sub.data s.data

/-- `content.toLowerCase().includes(keyword)` — the pervasive keyword test. -/
def lcContains (content keyword : String) : Bool :=
  strContains (lowerStr content) keyword

/-! ## Priorities and TODO records -/

/-- The `'high' | 'medium' | 'low'` priority union type. -/
inductive Priority where
  | high
  | medium
  | low
deriving DecidableEq, Repr

/-- Numeric rank used to state monotonicity (`high > medium > low`). -/
def priorityRank : Priority → Nat
  | .high => 2
  | .medium => 1
  | .low => 0

/-- Metadata attached by the markdown checkbox parser. -/
structure MdMeta where
  section_ : String
  completed : Bool
  indentLevel : Nat
  originalLine : String
deriving DecidableEq, Repr

/-- The `TodoItem` interface from `todo-types.ts`. -/
structure TodoItem where
  id : String
  content : String
  priority : Priority
  category : String
  source : String
  file : Option String := none
  line : Option Nat := none
  column : Option Nat := none
  metadata : Option MdMeta := none
deriving DecidableEq, Repr

/-- The summary object of `TodoAnalysisResult`. -/
structure Summary where
  total : Nat
  high_priority : Nat
  medium_priority : Nat
  low_priority : Nat
deriving DecidableEq, Repr

/-- `TodoAnalysisResult`. -/
structure TodoAnalysisResult where
  todos : List TodoItem
  summary : Summary
deriving DecidableEq, Repr

/-! ## Keyword tables (`todo-types.ts` `PRIORITY_KEYWORDS`) -/

def highKeywords : List String :=
  ["urgent", "critical", "important", "asap", "immediately", "must", "required", "blocking"]

def mediumKeywords : List String :=
  ["should", "need", "improvement", "enhance", "optimize", "refactor"]

def lowKeywords : List String :=
  ["nice", "maybe", "consider", "could", "might", "optional", "future"]

/-- `determinePriority` — identical in `OriginalTodoAnalyzer`,
`RepomixService` and `TreeSitterService`: first matching tier wins,
default `medium`. -/
def determinePriority (content : String) : Priority :=
  if highKeywords.any (fun k => lcContains content k) then .high
  else if mediumKeywords.any (fun k => lcContains content k) then .medium
  else if lowKeywords.any (fun k => lcContains content k) then .low
  else .medium

/-- `OriginalTodoAnalyzer.determineCategory`: testing → bug-fix →
documentation → refactoring → feature → general. -/
def determineCategoryOriginal (content : String) : String :=
  if lcContains content "test" || lcContains content "spec" then "testing"
  else if lcContains content "bug" || lcContains content "fix" then "bug-fix"
  else if lcContains content "doc" || lcContains content "comment" then "documentation"
  else if lcContains content "refactor" || lcContains content "optimize" then "refactoring"
  else if lcContains content "implement" || lcContains content "add" || lcContains content "create" then "feature"
  else "general"

/-- `RepomixService.determineCategory`: testing → bug-fix → feature →
refactoring → documentation → general. -/
def determineCategoryRepomix (content : String) : String :=
  if lcContains content "test" || lcContains content "spec" then "testing"
  else if lcContains content "bug" || lcContains content "fix" then "bug-fix"
  else if lcContains content "implement" || lcContains content "add" || lcContains content "create" then "feature"
  else if lcContains content "refactor" || lcContains content "optimize" then "refactoring"
  else if lcContains content "doc" || lcContains content "comment" then "documentation"
  else "general"

/-- `TreeSitterService.determineCategory` — same cascade as
`OriginalTodoAnalyzer.determineCategory`. -/
def determineCategoryTreeSitter (content : String) : String :=
  if lcContains content "test" || lcContains content "spec" then "testing"
  else if lcContains content "bug" || lcContains content "fix" then "bug-fix"
  else if lcContains content "doc" || lcContains content "comment" then "documentation"
  else if lcContains content "refactor" || lcContains content "optimize" then "refactoring"
  else if lcContains content "implement" || lcContains content "add" || lcContains content "create" then "feature"
  else "general"

/-- The category order asserted by the specification (§4.2): testing →
bug-fix → feature (implement/add/create/build) → refactoring →
documentation → general.  Written from the spec's words, for comparison
against the three implementations. -/
def specOrderCategory (content : String) : String :=
  if lcContains content "test" || lcContains content "spec" then "testing"
  else if lcContains content "bug" || lcContains content "fix" then "bug-fix"
  else if lcContains content "implement" || lcContains content "add" || lcContains content "create" || lcContains content "build" then "feature"
  else if lcContains content "refactor" || lcContains content "optimize" then "refactoring"
  else if lcContains content "doc" || lcContains content "comment" then "documentation"
  else "general"

/-! ## Enhanced priority overrides (`EnhancedTodoAnalyzer`) -/

def securityKeywords : List String :=
  ["security", "auth", "password", "token", "encrypt", "decrypt",
   "vulnerability", "xss", "sql injection", "csrf", "sanitize"]

def criticalKeywords : List String :=
  ["payment", "billing", "transaction", "order", "checkout",
   "data loss", "corruption", "backup", "recovery"]

def niceToHaveKeywords : List String :=
  ["nice to have", "optional", "maybe", "consider", "could",
   "ui improvement", "polish", "cosmetic"]

/-- `isSecurityRelated` (takes the already-lowercased content). -/
def isSecurityRelated (content : String) : Bool :=
  securityKeywords.any (fun k => strContains content k)

/-- `isCriticalBusinessLogic`. -/
def isCriticalBusinessLogic (content : String) : Bool :=
  criticalKeywords.any (fun k => strContains content k)

/-- `isNiceToHave`. -/
def isNiceToHave (content : String) : Bool :=
  niceToHaveKeywords.any (fun k => strContains content k)

/-- `EnhancedTodoAnalyzer.enhancedPriorityAnalysis`. -/
def enhancedPriorityAnalysis (todo : TodoItem) : Priority :=
  let content := lowerStr todo.content
  if isSecurityRelated content then .high
  else if isCriticalBusinessLogic content then .high
  else if todo.category = "bug-fix" && strContains todo.source "codebase" then .high
  else if isNiceToHave content then .low
  else todo.priority

/-- `EnhancedTodoAnalyzer.reprioritizeTodos`. -/
def reprioritizeTodos (todos : List TodoItem) : List TodoItem :=
  todos.map (fun todo => { todo with priority := enhancedPriorityAnalysis todo })

/-- `EnhancedTodoAnalyzer.generateSummary` (same shape as the summary
computed inline by `OriginalTodoAnalyzer.analyzeTodos`). -/
def generateSummary (todos : List TodoItem) : Summary :=
  { total := todos.length
    high_priority := (todos.filter (fun t => t.priority = .high)).length
    medium_priority := (todos.filter (fun t => t.priority = .medium)).length
    low_priority := (todos.filter (fun t => t.priority = .low)).length }

/-! ## Consolidation (`EnhancedTodoAnalyzer.consolidateDuplicates`) -/

/-- One step of `replace(/\s+/g, ' ')`: the Boolean records whether we are
inside a whitespace run already replaced by a single `' '`. -/
def collapseGo : Bool → List Char → List Char
  | _, [] => []
  | prevWs, c :: rest =>
    if isWsChar c then
      if prevWs then collapseGo true rest else ' ' :: collapseGo true rest
    else c :: collapseGo false rest

/-- `replace(/\s+/g, ' ')`: each maximal whitespace run becomes one space. -/
def collapseWs (cs : List Char) : List Char :=
  collapseGo false cs

/-- `replace(/[^\w\s]/g, '')`: drop punctuation, keep word chars and
whitespace. -/
def removePunct (cs : List Char) : List Char :=
  cs.filter (fun c => isWordChar c || isWsChar c)

/-- JS `split(sep)` for a one-character separator: split at every
occurrence, keeping empty fields (`"".split` yields `[""]`). -/
def splitOnChar (sep : Char) : List Char → List (List Char)
  | [] => [[]]
  | c :: rest =>
    if c = sep then [] :: splitOnChar sep rest
    else
      match splitOnChar sep rest with
      | [] => [[c]]
      | w :: ws => (c :: w) :: ws

/-- JS `split(' ')`. -/
def splitSp (cs : List Char) : List (List Char) :=
  splitOnChar ' ' cs

/-- JS `Array.prototype.join(' ')`. -/
def joinSp : List String → String
  | [] => ""
  | [w] => w
  | w :: rest => w ++ " " ++ joinSp rest

/-- The cleaning stage of `normalizeForConsolidation`:
`toLowerCase().replace(/[^\w\s]/g,'').replace(/\s+/g,' ').trim()`. -/
def clean (cs : List Char) : List Char :=
  trimWs (collapseWs (removePunct (cs.map lowerChar)))

/-- `Array.prototype.join(' ')` at the character level. -/
def joinSpChars : List (List Char) → List Char
  | [] => []
  | [w] => w
  | w :: rest => w ++ ' ' :: joinSpChars rest

/-- Code-unit lexicographic comparison — the default JS
`Array.prototype.sort()` string order. -/
def listLexLe : List Char → List Char → Bool
  | [], _ => true
  | _ :: _, [] => false
  | a :: as, b :: bs =>
    if a.toNat < b.toNat then true
    else if b.toNat < a.toNat then false
    else listLexLe as bs

/-- The JS default sort order, on the character lists of the words. -/
def jsLeC (a b : List Char) : Prop :=
  listLexLe a b = true

instance : DecidableRel jsLeC := fun a b =>
  inferInstanceAs (Decidable (_ = true))

/-- JS `Array.prototype.sort()` (code-unit lexicographic). -/
def sortWordsC (ws : List (List Char)) : List (List Char) :=
  List.insertionSort jsLeC ws

/-- The word list produced by
`content.toLowerCase().replace(/[^\w\s]/g,'').replace(/\s+/g,' ').trim().split(' ')`. -/
def consolidationWords (content : String) : List (List Char) :=
  splitSp (clean content.data)

/-- `EnhancedTodoAnalyzer.normalizeForConsolidation`. -/
def normalizeForConsolidation (content : String) : String :=
  ⟨joinSpChars (sortWordsC (consolidationWords content))⟩

/-- Insert one record into the insertion-ordered group map (JS `Map`
iteration order is key-insertion order; members accumulate by `push`). -/
def insertGrouped (key : String) (t : TodoItem) :
    List (String × List TodoItem) → List (String × List TodoItem)
  | [] => [(key, [t])]
  | (k, g) :: rest =>
    if k = key then (k, g ++ [t]) :: rest else (k, g) :: insertGrouped key t rest

/-- Group records by a key function, preserving key-first-seen order. -/
def groupByKey (key : TodoItem → String) (todos : List TodoItem) :
    List (String × List TodoItem) :=
  todos.foldl (fun acc t => insertGrouped (key t) t acc) []

/-- `EnhancedTodoAnalyzer.getHighestPriority`. -/
def getHighestPriority (ps : List Priority) : Priority :=
  if ps.contains .high then .high
  else if ps.contains .medium then .medium
  else .low

/-- `[...new Set(xs)]`: first-seen-order deduplication. -/
def firstSeenDedup (l : List String) : List String :=
  go [] l
where
  go (seen : List String) : List String → List String
    | [] => []
    | s :: rest =>
      if seen.contains s then go seen rest else s :: go (s :: seen) rest

/-- JS `Array.prototype.join('+')`. -/
def joinPlus : List String → String
  | [] => ""
  | [s] => s
  | s :: rest => s ++ "+" ++ joinPlus rest

/-- The merged record built for a duplicate group (`primary` is the
group's first member). -/
def consolidateGroup (primary : TodoItem) (g : List TodoItem) : TodoItem :=
  { primary with
    priority := getHighestPriority (g.map (·.priority))
    source := joinPlus (firstSeenDedup (g.map (·.source)))
    id := "consolidated-" ++ primary.id }

/-- `EnhancedTodoAnalyzer.consolidateDuplicates`.  Groups are nonempty by
construction; a singleton group passes its record through unchanged. -/
def consolidateDuplicates (todos : List TodoItem) : List TodoItem :=
  (groupByKey (fun t => normalizeForConsolidation t.content) todos).flatMap
    (fun kg =>
      match kg.2 with
      | [] => []
      | [t] => [t]
      | t :: t' :: rest => [consolidateGroup t (t :: t' :: rest)])

/-! ## The context extractor (`OriginalTodoAnalyzer`)

The four patterns of `todoPatterns` are embedded as explicit scanners.
Each pattern ends in a greedy `(.*)` or `(.+)`, so on a single line (no
newline) a successful match always extends to the end of the line and
`matchAll` yields at most one match per pattern per line — the leftmost
one, which the scanners below compute. -/

/-- Case-insensitive literal-keyword prefix match; returns the remainder
after the keyword.  Keywords are stored lowercase. -/
def kwAt : List Char → List Char → Option (List Char)
  | [], rest => some rest
  | _ :: _, [] => none
  | k :: ks, c :: rest => if lowerChar c = k then kwAt ks rest else none

/-- Try an alternation of keywords in source order. -/
def tryKws : List (List Char) → List Char → Option (List Char)
  | [], _ => none
  | kw :: kws, cs =>
    match kwAt kw cs with
    | some rest => some rest
    | none => tryKws kws cs

/-- Consume `(?:\s*[:\-]?\s*)` greedily. -/
def dropSep (cs : List Char) : List Char :=
  let r1 := cs.dropWhile isWsChar
  let r2 :=
    match r1 with
    | ':' :: t => t
    | '-' :: t => t
    | l => l
  r2.dropWhile isWsChar

/-- Marker-style pattern body at one position:
`KW(?:\s*[:\-]?\s*)(.*)` — the capture is everything after the
separator. -/
def captureMarker (kws : List (List Char)) (cs : List Char) : Option String :=
  (tryKws kws cs).map (fun rest => ⟨dropSep rest⟩)

/-- Verb-style pattern body at one position: `KW\s+(.+)`.  The greedy
`\s+` takes the whole whitespace run; if nothing follows, it backtracks
one whitespace character into the capture. -/
def captureVerb (kws : List (List Char)) (cs : List Char) : Option String :=
  match tryKws kws cs with
  | none => none
  | some rest =>
    let run := rest.takeWhile isWsChar
    let after := rest.dropWhile isWsChar
    if run.isEmpty then none
    else if !after.isEmpty then some ⟨after⟩
    else
      match run.getLast? with
      | some c => if 2 ≤ run.length then some ⟨[c]⟩ else none
      | none => none

/-- Scan for the leftmost match of `(?:^|\s)` followed by the given body:
first the `^` branch at position 0, then after each whitespace char. -/
def scanAfterWs (body : List Char → Option String) : List Char → Option String
  | [] => none
  | c :: rest =>
    match (if isWsChar c then body rest else none) with
    | some s => some s
    | none => scanAfterWs body rest

/-- Leftmost match of a `(?:^|\s)`-anchored pattern on one line. -/
def matchAnchored (body : List Char → Option String) (cs : List Char) : Option String :=
  match body cs with
  | some s => some s
  | none => scanAfterWs body cs

def markerKws : List (List Char) :=
  [['t','o','d','o'], ['f','i','x','m','e'], ['h','a','c','k'],
   ['x','x','x'], ['b','u','g'], ['n','o','t','e']]

def phraseKws : List (List Char) :=
  [['n','e','e','d',' ','t','o'], ['s','h','o','u','l','d'], ['m','u','s','t'],
   ['h','a','v','e',' ','t','o'], ['g','o','i','n','g',' ','t','o']]

def verbKws : List (List Char) :=
  [['i','m','p','l','e','m','e','n','t'], ['a','d','d'], ['c','r','e','a','t','e'],
   ['b','u','i','l','d'], ['f','i','x'], ['u','p','d','a','t','e'],
   ['r','e','f','a','c','t','o','r']]

def seqKws : List (List Char) :=
  [['n','e','x','t'], ['t','h','e','n'], ['a','f','t','e','r'], ['l','a','t','e','r']]

/-- The captures of the four `todoPatterns` on one line, in pattern
order. -/
def lineCaptures (line : List Char) : List String :=
  [matchAnchored (captureMarker markerKws) line,
   matchAnchored (captureVerb phraseKws) line,
   matchAnchored (captureVerb verbKws) line,
   matchAnchored (captureMarker seqKws) line].filterMap id

/-- A freshly extracted context TODO (`id` uses the running counter). -/
def buildContextTodo (idc : Nat) (content : String) : TodoItem :=
  { id := "context-" ++ toString idc
    content := content
    priority := determinePriority content
    category := determineCategoryOriginal content
    source := "current-context" }

/-- `OriginalTodoAnalyzer.deduplicateTodos`: keep the first record for
each `content.toLowerCase().trim()` key. -/
def dedupTodos (todos : List TodoItem) : List TodoItem :=
  go [] todos
where
  go (seen : List String) : List TodoItem → List TodoItem
    | [] => []
    | t :: rest =>
      let key := trimStr (lowerStr t.content)
      if seen.contains key then go seen rest
      else t :: go (key :: seen) rest

/-- Emission step shared by all captures: trim, keep only content longer
than 3 characters, assign the next counter value. -/
def emitCapture (st : Nat × List TodoItem) (cap : String) : Nat × List TodoItem :=
  let content := trimStr cap
  if 3 < content.length then
    (st.1 + 1, st.2 ++ [buildContextTodo st.1 content])
  else st

/-- `OriginalTodoAnalyzer.analyzeTodos`. -/
def analyzeTodos (context : String) : TodoAnalysisResult :=
  let lines := splitOnChar '\n' context.data
  let st := lines.foldl (fun st line => (lineCaptures line).foldl emitCapture st) (1, [])
  let uniqueTodos := dedupTodos st.2
  { todos := uniqueTodos, summary := generateSummary uniqueTodos }

/-! ## Grep-result parsing (`RepomixService.parseGrepResult`) -/

/-- A grep match as consumed by `RepomixService` (`GrepResult` in
`todo-types.ts`). -/
structure GrepResult where
  line : Nat
  content : String
  file : String
  match_ : String
deriving DecidableEq, Repr

/-- Leftmost, unanchored match of
`(?:TODO|FIXME|HACK|XXX|BUG|NOTE)(?:\s*[:\-]?\s*)(.*)/i` — the keyword
may start at any index. -/
def matchMarkerAnywhere : List Char → Option String
  | [] => none
  | c :: rest =>
    match captureMarker markerKws (c :: rest) with
    | some s => some s
    | none => matchMarkerAnywhere rest

/-- `RepomixService.parseGrepResult`.  An empty capture group is falsy in
JS, so it is rejected before trimming; trimmed content shorter than 3
characters is rejected. -/
def parseGrepResult (idc : Nat) (result : GrepResult) : Option TodoItem :=
  match matchMarkerAnywhere result.content.data with
  | none => none
  | some cap =>
    if cap = "" then none
    else
      let content := trimStr cap
      if content.length < 3 then none
      else
        some { id := "todo-" ++ toString idc
               content := content
               priority := determinePriority content
               category := determineCategoryRepomix content
               source := "codebase"
               file := some result.file
               line := some result.line }

/-! ## Markdown checkbox parsing (`MarkdownTodoParser.parseCheckboxTodo`) -/

def mdHighKeywords : List String :=
  ["urgent", "critical", "blocking", "asap", "immediately", "production", "security"]

def mdLowKeywords : List String :=
  ["nice to have", "optional", "future", "consider", "maybe", "eventually"]

/-- `MarkdownTodoParser.enhancePriorityFromContent`. -/
def enhancePriorityFromContent (content : String) (basePriority : Priority) : Priority :=
  let lower := lowerStr content
  if mdHighKeywords.any (fun k => strContains lower k) then .high
  else if mdLowKeywords.any (fun k => strContains lower k) then .low
  else basePriority

/-- `MarkdownTodoParser.categorizeFromSection`. -/
def categorizeFromSection (sect : String) : String :=
  let lower := lowerStr sect
  if strContains lower "deploy" || strContains lower "production" then "deployment"
  else if strContains lower "test" || strContains lower "qa" then "testing"
  else if strContains lower "doc" || strContains lower "readme" then "documentation"
  else if strContains lower "refactor" || strContains lower "architect" then "refactoring"
  else if strContains lower "bug" || strContains lower "fix" then "bug-fix"
  else if strContains lower "feature" || strContains lower "implement" then "feature"
  else if strContains lower "config" || strContains lower "setup" then "configuration"
  else if strContains lower "monitor" || strContains lower "observ" then "monitoring"
  else "general"

/-- The `\s*(.+)` tail after the closing bracket: greedy `\s*`, then a
nonempty capture, backtracking one whitespace character if needed. -/
def checkboxContent (cs : List Char) : Option (List Char) :=
  let run := cs.takeWhile isWsChar
  let after := cs.dropWhile isWsChar
  if !after.isEmpty then some after
  else
    match run.getLast? with
    | some c => some [c]
    | none => none

/-- `MarkdownTodoParser.parseCheckboxTodo`, matching
`^(\s*)-\s*\[\s*([x\s])\s*\]\s*(.+)`.  The status character is either a
literal `x` or (by backtracking into the `\s*`) a whitespace
character. -/
def parseCheckboxTodo (idc : Nat) (line : String) (filePath : String)
    (lineNumber : Nat) (sect : String) (priority : Priority) : Option TodoItem :=
  let indent := line.data.takeWhile isWsChar
  match line.data.dropWhile isWsChar with
  | '-' :: r2 =>
    match r2.dropWhile isWsChar with
    | '[' :: r4 =>
      let run := r4.takeWhile isWsChar
      let afterRun := r4.dropWhile isWsChar
      let statusRest : Option (Char × List Char) :=
        match afterRun with
        | 'x' :: r6 =>
          (match r6.dropWhile isWsChar with
           | ']' :: r8 => some ('x', r8)
           | _ => none)
        | ']' :: r8 =>
          (match run.getLast? with
           | some c => some (c, r8)
           | none => none)
        | _ => none
      match statusRest with
      | none => none
      | some (status, r8) =>
        match checkboxContent r8 with
        | none => none
        | some cap =>
          let isCompleted := lowerChar status = 'x'
          some { id := "md-checkbox-" ++ toString idc
                 content := trimStr ⟨cap⟩
                 priority := if isCompleted then .low
                             else enhancePriorityFromContent ⟨cap⟩ priority
                 category := categorizeFromSection sect
                 source := "markdown-checkbox"
                 file := some filePath
                 line := some lineNumber
                 metadata := some { section_ := sect
                                    completed := isCompleted
                                    indentLevel := indent.length / 2
                                    originalLine := trimStr line } }
    | _ => none
  | _ => none

/-! ## The enhanced analysis pipeline (`EnhancedTodoAnalyzer.analyzeComplete`)

External MCP capabilities (repomix packing, grep over a snapshot,
tree-sitter registration and queries, the file system walked by
`analyzeMarkdownTodos`) are modelled as an environment of `Except`-valued
oracles; the embedding mirrors exactly which call sites catch failures
(degrading to an empty contribution) and which rethrow. -/

/-- `CodebaseTodoAnalysis` from `todo-types.ts`. -/
structure CodebaseTodoAnalysis where
  contextTodos : List TodoItem
  codebaseTodos : List TodoItem
  validatedTodos : List TodoItem
  supersededTodos : List TodoItem
  summary : Summary
deriving DecidableEq, Repr

/-- `extractProjectName`: last `/`-separated component, or
`unknown-project` when that component is empty. -/
def extractProjectName (projectPath : String) : String :=
  match (splitOnChar '/' projectPath.data).getLast? with
  | some w => if w.isEmpty then "unknown-project" else ⟨w⟩
  | none => "unknown-project"

/-- `parseGrepResult` applied along a result list; the id counter advances
only when a record is actually produced. -/
def parseGrepResults (idc : Nat) : List GrepResult → List TodoItem
  | [] => []
  | r :: rest =>
    match parseGrepResult idc r with
    | some t => t :: parseGrepResults (idc + 1) rest
    | none => parseGrepResults idc rest

/-- The `source` of the grep pattern used by `findTodosInCodebase`. -/
def todoGrepPattern : String :=
  "(?:TODO|FIXME|HACK|XXX|BUG|NOTE)(?:\\s*[:\\-]?\\s*)(.*)"

/-- `RepomixService.findTodosInCodebase`: greps the packed snapshot and
parses every result; a grep failure is rethrown wrapped. -/
def findTodosInCodebase (grep : String → String → Nat → Except String (List GrepResult))
    (outputId : String) : Except String (List TodoItem) :=
  match grep outputId todoGrepPattern 2 with
  | .error e => .error ("Failed to find TODOs in codebase: " ++ e)
  | .ok rs => .ok (parseGrepResults 1 rs)

/-- Outcomes of the external capabilities consumed by
`EnhancedTodoAnalyzer.analyzeComplete`. -/
structure EnhEnv where
  packCodebase : String → Except String String
  registerProject : String → Except String Unit
  grepRepomix : String → String → Nat → Except String (List GrepResult)
  markdownTodos : Except String (List TodoItem)
  findSemanticTodos : String → Except String (List TodoItem)
  detectSupersededFeatures : String → List TodoItem → Except String (List TodoItem)

/-- `RepomixService.packProject`: wraps a packing failure. -/
def packProject (env : EnhEnv) (projectPath : String) : Except String String :=
  match env.packCodebase projectPath with
  | .ok outputId => .ok outputId
  | .error e => .error ("Failed to pack project: " ++ e)

/-- `EnhancedTodoAnalyzer.analyzeComplete`.  Every phase failure is caught
(`Promise.allSettled` for packing/registration, `try`/`catch` around each
source), so the body always produces a well-formed analysis. -/
def analyzeComplete (env : EnhEnv) (projectPath context : String) : CodebaseTodoAnalysis :=
  let contextAnalysis := analyzeTodos context
  let packResult := packProject env projectPath
  let registerResult := env.registerProject projectPath
  let codebaseTodos :=
    match packResult with
    | .ok outputId =>
      (match findTodosInCodebase env.grepRepomix outputId with
       | .ok todos => todos
       | .error _ => [])
    | .error _ => []
  let markdownTodos :=
    match env.markdownTodos with
    | .ok todos => todos
    | .error _ => []
  let semanticTodos :=
    match registerResult with
    | .ok _ =>
      (match env.findSemanticTodos (extractProjectName projectPath) with
       | .ok todos => todos
       | .error _ => [])
    | .error _ => []
  let allTodos := contextAnalysis.todos ++ codebaseTodos ++ markdownTodos ++ semanticTodos
  let consolidatedTodos := consolidateDuplicates allTodos
  let reprioritizedTodos := reprioritizeTodos consolidatedTodos
  let supersededTodos :=
    match registerResult with
    | .ok _ =>
      (match env.detectSupersededFeatures (extractProjectName projectPath) reprioritizedTodos with
       | .ok todos => todos
       | .error _ => [])
    | .error _ => []
  let supersededIds := supersededTodos.map (·.id)
  let validatedTodos := reprioritizedTodos.filter (fun t => !supersededIds.contains t.id)
  { contextTodos := contextAnalysis.todos
    codebaseTodos := codebaseTodos
    validatedTodos := validatedTodos
    supersededTodos := supersededTodos
    summary := generateSummary (validatedTodos ++ supersededTodos) }

/-! ## The cleanup lifecycle manager (`TodoLifecycleManager`) -/

/-- A grep match as consumed (untyped) by the lifecycle manager: only its
`text` field is read. -/
structure LGrep where
  text : String
deriving DecidableEq, Repr

structure CodeReference where
  original : String
  pattern : String
  refType : String
  confidence : ℚ
deriving DecidableEq, Repr

structure StaleItem where
  todo : TodoItem
  reason : String
  confidence : ℚ
  suggestion : String
deriving DecidableEq, Repr

structure CompletedItem where
  todo : TodoItem
  reason : String
  confidence : ℚ
  evidence : List LGrep
deriving DecidableEq, Repr

structure DuplicateGroup where
  normalizedContent : String
  todos : List TodoItem
  similarity : ℚ
  recommendedAction : String
deriving DecidableEq, Repr

structure SupersededItem where
  todo : TodoItem
  reason : String
  confidence : ℚ
  implementationEvidence : List LGrep
  suggestedAction : String
deriving DecidableEq, Repr

structure BrokenReference where
  todo : TodoItem
  referenceType : String
  brokenReference : String
  suggestion : String
deriving DecidableEq, Repr

/-- `CleanupRecommendation`; the implemented `type` union is
`'safe_deletion' | 'consolidation' | 'update_references'`, modelled as a
string so that claims about other action names remain statable. -/
structure CleanupRecommendation where
  recType : String
  priority : Priority
  description : String
  items : List TodoItem
  estimatedTimeSaved : ℚ
deriving DecidableEq, Repr

structure CleanupSummary where
  safeDeletions : Nat
  updateSuggestions : Nat
  consolidationOpportunities : Nat
  totalPotentialReduction : ℤ
deriving DecidableEq, Repr

structure TodoCleanupReport where
  totalAnalyzed : Nat
  staleItems : List StaleItem
  completedItems : List CompletedItem
  duplicateGroups : List DuplicateGroup
  supersededItems : List SupersededItem
  brokenReferences : List BrokenReference
  recommendations : List CleanupRecommendation
  cleanupSummary : CleanupSummary
deriving DecidableEq, Repr

structure CompletionAnalysis where
  isCompleted : Bool
  reason : String
  confidence : ℚ
deriving DecidableEq, Repr

structure SupersessionAnalysis where
  isSuperseded : Bool
  reason : String
  confidence : ℚ
deriving DecidableEq, Repr

/-- External capabilities of the lifecycle manager: `mcpClient.packCodebase`
and `mcpClient.grepRepomixOutput` (outputId, pattern, contextLines). -/
structure LifecycleEnv where
  packCodebase : String → Except String String
  grep : String → String → Nat → Except String (List LGrep)

/-- `getAllTodos`. -/
def getAllTodos (analysis : CodebaseTodoAnalysis) : List TodoItem :=
  analysis.contextTodos ++ analysis.codebaseTodos ++
    analysis.validatedTodos ++ analysis.supersededTodos

/-- `getTotalTodos`. -/
def getTotalTodos (analysis : CodebaseTodoAnalysis) : Nat :=
  (getAllTodos analysis).length

/-- Length bound for `dropWhile`, used by the scanner termination
arguments. -/
theorem length_dropWhile_le (p : Char → Bool) (l : List Char) :
    (l.dropWhile p).length ≤ l.length := by
  induction l with
  | nil => simp
  | cons c rest ih =>
    simp only [List.dropWhile_cons]
    split
    · simp
      omega
    · simp

theorem scanStep_lt0 (c : Char) (rest : List Char) :
    rest.length < (c :: rest).length := by
  simp

theorem scanStep_lt1 (p : Char → Bool) (c : Char) (rest : List Char) (h : p c = true) :
    ((c :: rest).dropWhile p).length < (c :: rest).length := by
  rw [List.dropWhile_cons]
  simp only [h, if_true]
  have := length_dropWhile_le p rest
  simp
  omega

theorem scanStep_lt2 (p q : Char → Bool) (c : Char) (rest : List Char) (h : p c = true) :
    (((c :: rest).dropWhile p).dropWhile q).tail.length < (c :: rest).length := by
  have h1 := scanStep_lt1 p c rest h
  have h2 := length_dropWhile_le q ((c :: rest).dropWhile p)
  have h3 : (((c :: rest).dropWhile p).dropWhile q).tail.length ≤
      (((c :: rest).dropWhile p).dropWhile q).length := by
    cases (((c :: rest).dropWhile p).dropWhile q) <;> simp
  omega

theorem scanStep_lt3 (p : Char → Bool) (c : Char) (rest : List Char) :
    (rest.dropWhile p).length < (c :: rest).length := by
  have := length_dropWhile_le p rest
  simp
  omega

theorem scanStep_lt4 (p : Char → Bool) (c : Char) (rest : List Char) (h : p c = true)
    (n : Nat) (hn : 1 ≤ n) :
    (((c :: rest).takeWhile p).drop n ++ (c :: rest).dropWhile p).length <
      (c :: rest).length := by
  have ht : (c :: rest).takeWhile p = c :: rest.takeWhile p := by
    simp [List.takeWhile_cons, h]
  have e : ((c :: rest).takeWhile p).length + ((c :: rest).dropWhile p).length =
      (c :: rest).length := by
    rw [← List.length_append, List.takeWhile_append_dropWhile]
  have h1 : 1 ≤ ((c :: rest).takeWhile p).length := by
    rw [ht]
    simp
  simp only [List.length_append, List.length_drop] at *
  omega

/-- Matches of `/\w+\s*\(/g`: a maximal word-character run, optional
whitespace, and an opening parenthesis. -/
def scanFnCalls : List Char → List String
  | [] => []
  | c :: rest =>
    if h : isWordChar c then
      let run := (c :: rest).takeWhile isWordChar
      let rest1 := (c :: rest).dropWhile isWordChar
      let ws := rest1.takeWhile isWsChar
      let rest2 := rest1.dropWhile isWsChar
      if rest2.head? = some '(' then
        (⟨run ++ ws ++ ['(']⟩ : String) :: scanFnCalls rest2.tail
      else scanFnCalls rest1
    else scanFnCalls rest
termination_by cs => cs.length
decreasing_by
  · exact scanStep_lt2 isWordChar isWsChar c rest h
  · exact scanStep_lt1 isWordChar c rest h
  · exact scanStep_lt0 c rest

/-- The maximal word-character runs of a string, in order. -/
def wordRuns : List Char → List (List Char)
  | [] => []
  | c :: rest =>
    if h : isWordChar c then
      ((c :: rest).takeWhile isWordChar) :: wordRuns ((c :: rest).dropWhile isWordChar)
    else wordRuns rest
termination_by cs => cs.length
decreasing_by
  · exact scanStep_lt1 isWordChar c rest h
  · exact scanStep_lt0 c rest

/-- JS `replace('(', '\\(')` on a function-call token. -/
def escapeParen (s : String) : String :=
  ⟨go s.data⟩
where
  go : List Char → List Char
    | [] => []
    | '(' :: rest => '\\' :: '(' :: rest
    | c :: rest => c :: go rest

/-- `extractCodeReferences`: function-call-shaped tokens, then the first
three `\b[a-z][A-Za-z0-9_]+\b` identifiers. -/
def extractCodeReferences (content : String) : List CodeReference :=
  let functionCalls := scanFnCalls content.data
  let fnRefs := functionCalls.map (fun call =>
    { original := call, pattern := escapeParen call
      refType := "function_call", confidence := (4 : ℚ)/5 })
  let identRuns := (wordRuns content.data).filter (fun r =>
    2 ≤ r.length &&
      (match r.head? with
       | some h => 'a' ≤ h && h ≤ 'z'
       | none => false))
  let varRefs := (identRuns.take 3).map (fun v =>
    { original := (⟨v⟩ : String), pattern := "\\b" ++ (⟨v⟩ : String) ++ "\\b"
      refType := "variable", confidence := (3 : ℚ)/5 })
  fnRefs ++ varRefs

/-- JS `split(/\s+/)`: maximal whitespace runs are separators; a leading
or trailing run yields an empty field. -/
def splitWsRuns : List Char → List (List Char)
  | [] => [[]]
  | c :: rest =>
    if isWsChar c then [] :: splitWsRuns (rest.dropWhile isWsChar)
    else
      match splitWsRuns rest with
      | [] => [[c]]
      | w :: ws => (c :: w) :: ws
termination_by cs => cs.length
decreasing_by
  · exact scanStep_lt3 isWsChar c rest
  · exact scanStep_lt0 c rest

def hedgeWords : List String :=
  ["should", "could", "would", "might", "maybe", "need", "want"]

/-- `extractImplementationKeywords`: significant lowercased words longer
than 4 characters, first three. -/
def extractImplementationKeywords (content : String) : List String :=
  let words := (splitWsRuns (lowerStr content).data).map (fun w => (⟨w⟩ : String))
  (words.filter (fun w => 4 < w.length && !hedgeWords.contains w)).take 3

/-- The character class `[\w\/.-]` of the file-reference pattern. -/
def isPathChar (c : Char) : Bool :=
  isWordChar c || c = '/' || c = '.' || c = '-'

/-- First extension alternative (`ts|js|py|md|json|yaml|yml`, in source
order) that is a prefix of the given characters. -/
def extPrefix (cs : List Char) : Option (List Char) :=
  (["ts", "js", "py", "md", "json", "yaml", "yml"].find?
    (fun e => listIsPrefix e.data cs)).map (·.data)

/-- Backtracking of `[\w\/.-]+\.(ts|…)`: the latest dot position `k ≥ 1`
inside the run whose suffix starts with an extension alternative. -/
def findDotSplit (run : List Char) : Option (Nat × List Char) :=
  go run.length
where
  go : Nat → Option (Nat × List Char)
    | 0 => none
    | k + 1 =>
      if k = 0 then none
      else if run.get? k = some '.' then
        match extPrefix (run.drop (k + 1)) with
        | some ext => some (k, ext)
        | none => go k
      else go k

/-- Matches of `/[\w\/.-]+\.(ts|js|py|md|json|yaml|yml)/g`.  After a
match, scanning resumes immediately after the matched text (which may lie
inside the path-character run). -/
def scanFileRefs : List Char → List String
  | [] => []
  | c :: rest =>
    if h : isPathChar c then
      let run := (c :: rest).takeWhile isPathChar
      let restAfter := (c :: rest).dropWhile isPathChar
      match findDotSplit run with
      | some (k, ext) =>
        (⟨run.take (k + 1 + ext.length)⟩ : String) ::
          scanFileRefs (run.drop (k + 1 + ext.length) ++ restAfter)
      | none => scanFileRefs restAfter
    else scanFileRefs rest
termination_by cs => cs.length
decreasing_by
  · exact scanStep_lt4 isPathChar c rest h (k + 1 + ext.length) (by omega)
  · exact scanStep_lt1 isPathChar c rest h
  · exact scanStep_lt0 c rest

/-- `extractFileReferences`. -/
def extractFileReferences (content : String) : List String :=
  scanFileRefs content.data

/-- Matches of `/\b[a-z][A-Za-z0-9_]*(?=\()/g`: a word run starting with a
lowercase letter and immediately followed by `(` (not consumed). -/
def scanFuncRefs : List Char → List String
  | [] => []
  | c :: rest =>
    if h : isWordChar c then
      let run := (c :: rest).takeWhile isWordChar
      let after := (c :: rest).dropWhile isWordChar
      if ('a' ≤ c && c ≤ 'z') &&
          (match after.head? with
           | some '(' => true
           | _ => false) then
        (⟨run⟩ : String) :: scanFuncRefs after
      else scanFuncRefs after
    else scanFuncRefs rest
termination_by cs => cs.length
decreasing_by
  · exact scanStep_lt1 isWordChar c rest h
  · exact scanStep_lt1 isWordChar c rest h
  · exact scanStep_lt0 c rest

/-- `extractFunctionReferences`. -/
def extractFunctionReferences (content : String) : List String :=
  scanFuncRefs content.data

/-- `normalizeTodoContent` (lifecycle variant): punctuation becomes a
space, whitespace collapses, ends trimmed — no word sorting here. -/
def normalizeTodoContent (content : String) : String :=
  ⟨trimWs (collapseWs ((lowerStr content).data.map
    (fun c => if isWordChar c || isWsChar c then c else ' ')))⟩

/-- `new Set(content.toLowerCase().split(/\s+/))`. -/
def wordSet (content : String) : List String :=
  firstSeenDedup ((splitWsRuns (lowerStr content).data).map (fun w => (⟨w⟩ : String)))

/-- Jaccard word overlap of two records' contents. -/
def jaccardSim (t1 t2 : TodoItem) : ℚ :=
  let w1 := wordSet t1.content
  let w2 := wordSet t2.content
  let inter := w1.filter (fun w => w2.contains w)
  let union := firstSeenDedup (w1 ++ w2)
  (inter.length : ℚ) / (union.length : ℚ)

/-- `calculateGroupSimilarity`: word overlap of the first two members
only; fewer than two members score 0. -/
def calculateGroupSimilarity (todos : List TodoItem) : ℚ :=
  match todos with
  | t1 :: t2 :: _ => jaccardSim t1 t2
  | _ => 0

/-- `recommendDuplicateAction`. -/
def recommendDuplicateAction (todos : List TodoItem) : String :=
  if todos.any (fun t => t.source = "context") then
    "Keep context version, remove file duplicates"
  else "Consolidate into single location with highest priority"

/-- The group test of `detectDuplicates`: more than one member and
similarity strictly above the 0.8 threshold. -/
def dupGroupOf (kg : String × List TodoItem) : Option DuplicateGroup :=
  if 1 < kg.2.length then
    if (4 : ℚ)/5 < calculateGroupSimilarity kg.2 then
      some { normalizedContent := kg.1, todos := kg.2
             similarity := calculateGroupSimilarity kg.2
             recommendedAction := recommendDuplicateAction kg.2 }
    else none
  else none

/-- The duplicate groups recorded by `detectDuplicates`: groups (by
normalized content) with more than one member and similarity above 0.8. -/
def dupGroups (analysis : CodebaseTodoAnalysis) : List DuplicateGroup :=
  (groupByKey (fun t => normalizeTodoContent t.content) (getAllTodos analysis)).filterMap
    dupGroupOf

/-- `detectDuplicates`. -/
def detectDuplicates (analysis : CodebaseTodoAnalysis) (report : TodoCleanupReport) :
    TodoCleanupReport :=
  { report with duplicateGroups := report.duplicateGroups ++ dupGroups analysis }

/-- `generateStaleSuggestion`. -/
def generateStaleSuggestion (ref : CodeReference) : String :=
  "Update or remove reference to " ++ ref.original ++ " in TODO"

def completionKeywords : List String :=
  ["implemented", "done", "completed", "finished", "resolved"]

/-- `analyzeForCompletion`: first completion keyword contained in the
joined, lowercased grep context. -/
def analyzeForCompletion (grepResults : List LGrep) : CompletionAnalysis :=
  let contextText := lowerStr (joinSp (grepResults.map (·.text)))
  match completionKeywords.find? (fun k => strContains contextText k) with
  | some k =>
    { isCompleted := true, reason := "Found completion indicator: " ++ k
      confidence := (4 : ℚ)/5 }
  | none => { isCompleted := false, reason := "", confidence := 0 }

def implContexts : List String :=
  ["function", "class", "const", "let", "var", "export"]

/-- `analyzeForSupersession`: first grep hit whose lowercased text contains
both an implementation-context keyword and the candidate term. -/
def analyzeForSupersession (grepResults : List LGrep) (keyword : String) :
    SupersessionAnalysis :=
  go grepResults
where
  go : List LGrep → SupersessionAnalysis
    | [] => { isSuperseded := false, reason := "", confidence := 0 }
    | r :: rest =>
      let text := lowerStr r.text
      match implContexts.find? (fun c => strContains text c && strContains text keyword) with
      | some ctx =>
        { isSuperseded := true
          reason := "Implementation found: " ++ ctx ++ " " ++ keyword
          confidence := (9 : ℚ)/10 }
      | none => go rest

/-- One reference check of `detectStaleAndCompleted` (a grep failure skips
the check). -/
def staleCompletedStep (env : LifecycleEnv) (outputId : String) (todo : TodoItem)
    (st : List StaleItem × List CompletedItem) (ref : CodeReference) :
    List StaleItem × List CompletedItem :=
  match env.grep outputId ref.pattern 3 with
  | .error _ => st
  | .ok [] =>
    (st.1 ++ [{ todo := todo
                reason := "Referenced code not found: " ++ ref.original
                confidence := ref.confidence
                suggestion := generateStaleSuggestion ref }], st.2)
  | .ok grepResults =>
    let completion := analyzeForCompletion grepResults
    if completion.isCompleted then
      (st.1, st.2 ++ [{ todo := todo
                        reason := completion.reason
                        confidence := completion.confidence
                        evidence := grepResults.take 3 }])
    else st

/-- `detectStaleAndCompleted`. -/
def detectStaleAndCompleted (env : LifecycleEnv) (outputId : String)
    (analysis : CodebaseTodoAnalysis) (report : TodoCleanupReport) : TodoCleanupReport :=
  let st := (getAllTodos analysis).foldl
    (fun st todo =>
      (extractCodeReferences todo.content).foldl (staleCompletedStep env outputId todo) st)
    (report.staleItems, report.completedItems)
  { report with staleItems := st.1, completedItems := st.2 }

/-- The keyword loop of `detectSuperseded` for one record: first keyword
whose grep evidence shows an implementation wins (`break`); grep failures
skip that keyword. -/
def findSupersession (env : LifecycleEnv) (outputId : String) (todo : TodoItem) :
    List String → Option SupersededItem
  | [] => none
  | kw :: rest =>
    match env.grep outputId kw 5 with
    | .error _ => findSupersession env outputId todo rest
    | .ok grepResults =>
      let s := analyzeForSupersession grepResults kw
      if s.isSuperseded then
        some { todo := todo, reason := s.reason, confidence := s.confidence
               implementationEvidence := grepResults.take 2
               suggestedAction := "safe_delete" }
      else findSupersession env outputId todo rest

/-- `detectSuperseded`. -/
def detectSuperseded (env : LifecycleEnv) (outputId : String)
    (analysis : CodebaseTodoAnalysis) (report : TodoCleanupReport) : TodoCleanupReport :=
  { report with
    supersededItems := report.supersededItems ++
      (getAllTodos analysis).filterMap (fun todo =>
        findSupersession env outputId todo (extractImplementationKeywords todo.content)) }

/-- The broken-reference checks of one record: file references then
function references; only an empty (successful) grep marks a reference as
broken. -/
def brokenForTodo (env : LifecycleEnv) (outputId : String) (todo : TodoItem) :
    List BrokenReference :=
  ((extractFileReferences todo.content).filterMap (fun fileRef =>
    match env.grep outputId ("path=\"" ++ fileRef ++ "\"") 1 with
    | .ok [] =>
      some { todo := todo, referenceType := "file", brokenReference := fileRef
             suggestion := "Update file path or remove reference to " ++ fileRef }
    | _ => none)) ++
  ((extractFunctionReferences todo.content).filterMap (fun funcRef =>
    match env.grep outputId
        ("function " ++ funcRef ++ "|const " ++ funcRef ++ "|" ++ funcRef ++ "\\(") 1 with
    | .ok [] =>
      some { todo := todo, referenceType := "function", brokenReference := funcRef
             suggestion := "Update function name or remove reference to " ++ funcRef ++ "()" }
    | _ => none))

/-- `detectBrokenReferences`. -/
def detectBrokenReferences (env : LifecycleEnv) (outputId : String)
    (analysis : CodebaseTodoAnalysis) (report : TodoCleanupReport) : TodoCleanupReport :=
  { report with
    brokenReferences := report.brokenReferences ++
      (getAllTodos analysis).flatMap (brokenForTodo env outputId) }

/-- JS `Math.round`. -/
def jsRound (q : ℚ) : ℤ :=
  ⌊q + 1/2⌋

/-- `generateRecommendations`: three rule families (safe deletion,
consolidation of significant duplicate groups, stale-reference updates)
and the numeric summary. -/
def generateRecommendations (report : TodoCleanupReport) : TodoCleanupReport :=
  let safeDeletions :=
    (report.completedItems.filter (fun i => (85 : ℚ)/100 < i.confidence)).map (·.todo) ++
    (report.supersededItems.filter (fun i => (85 : ℚ)/100 < i.confidence)).map (·.todo)
  let recs1 : List CleanupRecommendation :=
    if 0 < safeDeletions.length then
      [{ recType := "safe_deletion", priority := .high
         description := toString safeDeletions.length ++
           " TODOs can be safely deleted (completed/superseded)"
         items := safeDeletions
         estimatedTimeSaved := (safeDeletions.length : ℚ) * 2 }]
    else []
  let significantDuplicates := report.duplicateGroups.filter (fun g => 2 < g.todos.length)
  let totalDuplicates : Nat := (significantDuplicates.map (fun g => g.todos.length - 1)).sum
  let recs2 : List CleanupRecommendation :=
    if 0 < significantDuplicates.length then
      [{ recType := "consolidation", priority := .medium
         description := "Consolidate " ++ toString totalDuplicates ++
           " duplicate TODOs across " ++ toString significantDuplicates.length ++ " groups"
         items := significantDuplicates.flatMap (fun g => g.todos.drop 1)
         estimatedTimeSaved := (totalDuplicates : ℚ) * (3/2) }]
    else []
  let staleItems := report.staleItems.filter (fun i => (7 : ℚ)/10 < i.confidence)
  let recs3 : List CleanupRecommendation :=
    if 0 < staleItems.length then
      [{ recType := "update_references", priority := .medium
         description := "Update " ++ toString staleItems.length ++
           " TODOs with stale code references"
         items := staleItems.map (·.todo)
         estimatedTimeSaved := (staleItems.length : ℚ) * 3 }]
    else []
  let recommendations := report.recommendations ++ recs1 ++ recs2 ++ recs3
  { report with
    recommendations := recommendations
    cleanupSummary :=
      { safeDeletions := safeDeletions.length
        updateSuggestions := staleItems.length + report.brokenReferences.length
        consolidationOpportunities := significantDuplicates.length
        totalPotentialReduction :=
          jsRound ((recommendations.map (·.estimatedTimeSaved)).sum) } }

/-- The empty report `analyzeForCleanup` starts from. -/
def initialReport (analysis : CodebaseTodoAnalysis) : TodoCleanupReport :=
  { totalAnalyzed := getTotalTodos analysis
    staleItems := [], completedItems := [], duplicateGroups := []
    supersededItems := [], brokenReferences := [], recommendations := []
    cleanupSummary :=
      { safeDeletions := 0, updateSuggestions := 0
        consolidationOpportunities := 0, totalPotentialReduction := 0 } }

/-- `TodoLifecycleManager.analyzeForCleanup`: a packing failure escapes the
per-check catches, reaches the outer handler and is **rethrown** wrapped in
`TODO cleanup analysis failed: …`; otherwise the five phases run, each
internally fault-tolerant. -/
def analyzeForCleanup (env : LifecycleEnv) (analysis : CodebaseTodoAnalysis)
    (projectPath : String) : Except String TodoCleanupReport :=
  match env.packCodebase projectPath with
  | .error e => .error ("TODO cleanup analysis failed: " ++ e)
  | .ok outputId =>
    let r1 := detectStaleAndCompleted env outputId analysis (initialReport analysis)
    let r2 := detectDuplicates analysis r1
    let r3 := detectSuperseded env outputId analysis r2
    let r4 := detectBrokenReferences env outputId analysis r3
    .ok (generateRecommendations r4)

/-! ## Concrete inputs used by the example-based theorems -/

/-- The two duplicate records used in the consolidation examples:
`"fix bug"` from the context and `"Fix bug!"` from the codebase normalize
to the same bag-of-words key. -/
def dupA : TodoItem :=
  { id := "a", content := "fix bug", priority := .medium,
    category := "bug-fix", source := "current-context" }

/-- The codebase-side member of the duplicate pair `dupA`/`dupB`. -/
def dupB : TodoItem :=
  { id := "b", content := "Fix bug!", priority := .high,
    category := "bug-fix", source := "codebase" }

/-- Cleanup-analysis record `"fix auth-bug"` (hyphenated). -/
def hyphA : TodoItem :=
  { id := "h1", content := "fix auth-bug", priority := .medium,
    category := "bug-fix", source := "context" }

/-- Cleanup-analysis record `"fix auth bug"` (spaced). -/
def hyphB : TodoItem :=
  { id := "h2", content := "fix auth bug", priority := .medium,
    category := "bug-fix", source := "codebase" }

/-- Two cleanup-analysis records that differ only by hyphenation: same
normalized content, low first-pair word overlap. -/
def hyphenAnalysis : CodebaseTodoAnalysis :=
  { contextTodos := [hyphA, hyphB]
    codebaseTodos := [], validatedTodos := [], supersededTodos := []
    summary := { total := 2, high_priority := 0, medium_priority := 2, low_priority := 0 } }

/-- First record of the concrete duplicate pair. -/
def dupW1 : TodoItem :=
  { id := "w1", content := "fix bug", priority := .medium,
    category := "bug-fix", source := "context" }

/-- Second record of the concrete duplicate pair. -/
def dupW2 : TodoItem :=
  { id := "w2", content := "fix bug", priority := .high,
    category := "bug-fix", source := "codebase" }

/-- Concrete duplicate pair: two records with identical content. -/
def dupAnalysisW : CodebaseTodoAnalysis :=
  { contextTodos := [dupW1, dupW2]
    codebaseTodos := [], validatedTodos := [], supersededTodos := []
    summary := { total := 2, high_priority := 1, medium_priority := 1, low_priority := 0 } }

/-- A lifecycle environment whose packing succeeds but whose grep calls
all fail (search capability unavailable). -/
def lifecycleEnvGrepErr : LifecycleEnv :=
  { packCodebase := fun _ => .ok "out-1"
    grep := fun _ _ _ => .error "grep unavailable" }

/-- A lifecycle environment whose packing itself fails. -/
def lifecycleEnvPackErr : LifecycleEnv :=
  { packCodebase := fun _ => .error "boom"
    grep := fun _ _ _ => .error "grep unavailable" }

/-- The empty codebase analysis. -/
def analysisEmpty : CodebaseTodoAnalysis :=
  { contextTodos := [], codebaseTodos := [], validatedTodos := [], supersededTodos := []
    summary := { total := 0, high_priority := 0, medium_priority := 0, low_priority := 0 } }

/-- A single record for which the cleanup run can gather no evidence. -/
def todoU : TodoItem :=
  { id := "u1", content := "Refactor the session cache", priority := .medium,
    category := "refactoring", source := "current-context" }

/-- A one-record analysis fed to the cleanup run. -/
def analysisOne : CodebaseTodoAnalysis :=
  { contextTodos := [], codebaseTodos := [], validatedTodos := [todoU], supersededTodos := []
    summary := { total := 1, high_priority := 0, medium_priority := 1, low_priority := 0 } }

/-- The cleanup report produced on the empty analysis when every grep
fails. -/
def reportEmptyW : TodoCleanupReport :=
  generateRecommendations (detectBrokenReferences lifecycleEnvGrepErr "out-1" analysisEmpty
    (detectSuperseded lifecycleEnvGrepErr "out-1" analysisEmpty
      (detectDuplicates analysisEmpty
        (detectStaleAndCompleted lifecycleEnvGrepErr "out-1" analysisEmpty
          (initialReport analysisEmpty)))))

/-- A semantic-analysis record returned by the semantic oracle. -/
def semTodo : TodoItem :=
  { id := "sem-1", content := "Implement semantic search", priority := .medium,
    category := "feature", source := "semantic-analysis" }

/-- An enhanced-analysis environment whose packing fails but whose
registration and semantic search succeed: the pipeline still receives the
semantic record. -/
def enhEnvC : EnhEnv :=
  { packCodebase := fun _ => .error "boom"
    registerProject := fun _ => .ok ()
    grepRepomix := fun _ _ _ => .error "no snapshot"
    markdownTodos := .error "fs unavailable"
    findSemanticTodos := fun _ => .ok [semTodo]
    detectSupersededFeatures := fun _ _ => .ok [] }

/-! ## Theorems -/

/-- **C9.** For every list of TodoRecords, the computed summary satisfies
`total == high_priority + medium_priority + low_priority`, where each
component counts the records whose priority equals that tier. -/
theorem summary_additivity (todos : List TodoItem) :
    (generateSummary todos).total =
      (generateSummary todos).high_priority + (generateSummary todos).medium_priority +
        (generateSummary todos).low_priority := by
  simp only [generateSummary]
  induction todos with
  | nil => simp
  | cons t rest ih =>
    cases ht : t.priority <;> simp [List.filter_cons, ht] <;> omega

/-- **C2 (amended).** The security, critical-business and
bug-fix-in-codebase overrides only ever raise a record's priority (to
high), and content matching no override table keeps its priority
unchanged; but the nice-to-have override *lowers* the priority to low
whenever it fires and no raising override precedes it. -/
theorem enhancedPriority_monotone_except_niceToHave (t : TodoItem) :
    (priorityRank t.priority ≤ priorityRank (enhancedPriorityAnalysis t) ∨
      (isNiceToHave (lowerStr t.content) = true ∧ enhancedPriorityAnalysis t = .low)) ∧
    (isSecurityRelated (lowerStr t.content) = false →
      isCriticalBusinessLogic (lowerStr t.content) = false →
      (t.category = "bug-fix" && strContains t.source "codebase") = false →
      isNiceToHave (lowerStr t.content) = false →
      enhancedPriorityAnalysis t = t.priority) := by
  constructor
  · simp only [enhancedPriorityAnalysis]
    split_ifs with h1 h2 h3 h4
    · left; cases t.priority <;> simp [priorityRank]
    · left; cases t.priority <;> simp [priorityRank]
    · left; cases t.priority <;> simp [priorityRank]
    · right; exact ⟨by simpa using h4, rfl⟩
    · left; exact le_refl _
  · intro hs hc hb hn
    simp [enhancedPriorityAnalysis, hs, hc, hb, hn]

/-- Witness for the amended C2 theorem: a record matching no override
table keeps its priority. -/
theorem enhancedPriority_monotone_except_niceToHave_witness :
    enhancedPriorityAnalysis
      { id := "w2", content := "rewrite the parsing loop", priority := .medium,
        category := "general", source := "current-context" } = .medium :=
  ((enhancedPriority_monotone_except_niceToHave
      { id := "w2", content := "rewrite the parsing loop", priority := .medium,
        category := "general", source := "current-context" }).2
    (by decide) (by decide) (by decide) (by decide))

/-- **C2 (counterexample).** The priority-override heuristic *can* lower a
priority: a high-priority record whose content matches the nice-to-have
vocabulary (`consider`, `polish`) but no security/critical vocabulary is
reassigned low priority. -/
theorem enhancedPriority_drop_counterexample :
    enhancedPriorityAnalysis
        { id := "t1", content := "urgent consider polish", priority := .high,
          category := "general", source := "current-context" } = .low ∧
      priorityRank
          (enhancedPriorityAnalysis
            { id := "t1", content := "urgent consider polish", priority := .high,
              category := "general", source := "current-context" }) <
        priorityRank Priority.high := by
  decide

/-- **C6 (amended).** `RepomixService.determineCategory` checks feature
before refactoring before documentation, while `OriginalTodoAnalyzer` and
`TreeSitterService` (which agree on every input) check documentation
before refactoring before feature; `build` is a feature keyword in none
of them, so the extractors do not share the single claimed order. -/
theorem determineCategory_orders :
    (∀ content, determineCategoryTreeSitter content = determineCategoryOriginal content) ∧
    determineCategoryOriginal "add doc" = "documentation" ∧
    determineCategoryRepomix "add doc" = "feature" ∧
    determineCategoryOriginal "optimize doc" = "documentation" ∧
    determineCategoryRepomix "optimize doc" = "refactoring" ∧
    determineCategoryOriginal "build it" = "general" ∧
    determineCategoryRepomix "build it" = "general" := by
  exact ⟨fun _ => rfl, by decide, by decide, by decide, by decide, by decide, by decide⟩

/-- **C6 (counterexample).** The classifiers do not follow the order
stated in the specification: on `"add doc"` the original/tree-sitter
classifier answers `documentation` where the claimed order demands
`feature`, and on `"build it"` even `RepomixService` answers `general`
where the claimed order (with its `build` keyword) demands `feature`. -/
theorem determineCategory_order_counterexample :
    determineCategoryOriginal "add doc" ≠ specOrderCategory "add doc" ∧
    specOrderCategory "add doc" = "feature" ∧
    determineCategoryTreeSitter "add doc" = "documentation" ∧
    determineCategoryRepomix "build it" ≠ specOrderCategory "build it" ∧
    specOrderCategory "build it" = "feature" := by
  decide

/-! ### Supporting lemmas for consolidation (C4) -/

theorem listIsPrefix_append (sub t : List Char) :
    listIsPrefix sub (sub ++ t) = true := by
  induction sub with
  | nil => rfl
  | cons a as ih => simp [listIsPrefix, ih]

theorem listContainsSub_of_prefix (sub l : List Char)
    (h : listIsPrefix sub l = true) : listContainsSub sub l = true := by
  cases l with
  | nil =>
    cases sub with
    | nil => rfl
    | cons a as => simp [listIsPrefix] at h
  | cons c rest => simp [listContainsSub, h]

theorem listContainsSub_cons (sub l : List Char) (c : Char)
    (h : listContainsSub sub l = true) : listContainsSub sub (c :: l) = true := by
  simp [listContainsSub, h]

theorem listContainsSub_append_left (sub pre l : List Char)
    (h : listContainsSub sub l = true) : listContainsSub sub (pre ++ l) = true := by
  induction pre with
  | nil => simpa using h
  | cons c cs ih => exact listContainsSub_cons sub (cs ++ l) c ih

theorem strContains_joinPlus (s : String) (l : List String) (h : s ∈ l) :
    strContains (joinPlus l) s = true := by
  induction l with
  | nil => cases h
  | cons a rest ih =>
    cases rest with
    | nil =>
      have hs : s = a := by simpa using h
      subst hs
      have : joinPlus [s] = s := rfl
      rw [this]
      have := listIsPrefix_append s.data []
      rw [List.append_nil] at this
      exact listContainsSub_of_prefix _ _ this
    | cons b rest' =>
      rcases List.mem_cons.mp h with hs | hs
      · subst hs
        show listContainsSub s.data (s ++ "+" ++ joinPlus (b :: rest')).data = true
        have hd : (s ++ "+" ++ joinPlus (b :: rest')).data =
            s.data ++ ('+' :: (joinPlus (b :: rest')).data) := by
          simp [String.data_append]
        rw [hd]
        exact listContainsSub_of_prefix _ _ (listIsPrefix_append _ _)
      · have hc := ih hs
        show listContainsSub s.data (a ++ "+" ++ joinPlus (b :: rest')).data = true
        have hd : (a ++ "+" ++ joinPlus (b :: rest')).data =
            (a.data ++ ['+']) ++ (joinPlus (b :: rest')).data := by
          simp [String.data_append]
        rw [hd]
        exact listContainsSub_append_left _ _ _ hc

theorem firstSeenDedup_go_mem (s : String) :
    ∀ (l seen : List String), s ∈ l → seen.contains s = false →
      s ∈ firstSeenDedup.go seen l := by
  intro l
  induction l with
  | nil => intro seen h; cases h
  | cons a rest ih =>
    intro seen h hseen
    simp only [firstSeenDedup.go]
    rcases List.mem_cons.mp h with hs | hs
    · subst hs
      rw [if_neg (by simp_all)]
      exact List.mem_cons_self _ _
    · by_cases ha : seen.contains a = true
      · rw [if_pos ha]
        exact ih seen hs hseen
      · rw [if_neg ha]
        by_cases hsa : s = a
        · subst hsa
          exact List.mem_cons_self _ _
        · refine List.mem_cons_of_mem _ (ih (a :: seen) hs ?_)
          simp_all

theorem firstSeenDedup_mem (s : String) (l : List String) (h : s ∈ l) :
    s ∈ firstSeenDedup l :=
  firstSeenDedup_go_mem s l [] h rfl

theorem getHighestPriority_mem (ps : List Priority) (h : ps ≠ []) :
    getHighestPriority ps ∈ ps := by
  unfold getHighestPriority
  split_ifs with h1 h2
  · simpa using h1
  · simpa using h2
  · cases ps with
    | nil => exact absurd rfl h
    | cons p rest =>
      have hp : p = Priority.low := by
        cases p
        · simp at h1
        · simp at h2
        · rfl
      rw [← hp]
      exact List.mem_cons_self _ _

theorem getHighestPriority_le (ps : List Priority) (p : Priority) (hp : p ∈ ps) :
    priorityRank p ≤ priorityRank (getHighestPriority ps) := by
  unfold getHighestPriority
  split_ifs with h1 h2
  · cases p <;> simp [priorityRank]
  · cases p
    · exact absurd (by simpa using hp) (by simpa using h1)
    · simp [priorityRank]
    · simp [priorityRank]
  · cases p
    · exact absurd (by simpa using hp) (by simpa using h1)
    · exact absurd (by simpa using hp) (by simpa using h2)
    · simp [priorityRank]

theorem insertGrouped_length_le (key : String) (t : TodoItem) (gs : List (String × List TodoItem)) :
    (insertGrouped key t gs).length ≤ gs.length + 1 := by
  induction gs with
  | nil => simp [insertGrouped]
  | cons kg rest ih =>
    obtain ⟨k, g⟩ := kg
    simp only [insertGrouped]
    split_ifs <;> simp <;> omega

theorem groupByKey_foldl_length_le (key : TodoItem → String) (todos : List TodoItem) :
    ∀ acc : List (String × List TodoItem),
      (todos.foldl (fun acc t => insertGrouped (key t) t acc) acc).length ≤
        acc.length + todos.length := by
  induction todos with
  | nil => intro acc; simp
  | cons t rest ih =>
    intro acc
    simp only [List.foldl_cons]
    have h1 := ih (insertGrouped (key t) t acc)
    have h2 := insertGrouped_length_le (key t) t acc
    simp only [List.length_cons]
    omega

theorem groupByKey_length_le (key : TodoItem → String) (todos : List TodoItem) :
    (groupByKey key todos).length ≤ todos.length := by
  have := groupByKey_foldl_length_le key todos []
  simpa [groupByKey] using this

theorem flatMap_length_le_one {α β : Type _} (l : List α) (f : α → List β)
    (h : ∀ x, (f x).length ≤ 1) : (l.flatMap f).length ≤ l.length := by
  induction l with
  | nil => simp
  | cons a rest ih =>
    simp only [List.flatMap_cons, List.length_append, List.length_cons]
    have := h a
    omega

/-- **C4.** `consolidateDuplicates` emits at most as many records as it
receives, and for every group of two or more records sharing a normalized
key the emitted merged record carries the maximum priority over the group,
a `+`-join of the group's distinct sources in first-seen order (hence
containing every distinct input source), and an id derived from the first
member's id. -/
theorem consolidation_merge_spec (todos : List TodoItem) :
    (consolidateDuplicates todos).length ≤ todos.length ∧
    (∀ (k : String) (t : TodoItem) (rest : List TodoItem),
      (k, t :: rest) ∈ groupByKey (fun t => normalizeForConsolidation t.content) todos →
      rest ≠ [] →
      consolidateGroup t (t :: rest) ∈ consolidateDuplicates todos ∧
      (consolidateGroup t (t :: rest)).priority ∈ (t :: rest).map (·.priority) ∧
      (∀ p ∈ (t :: rest).map (·.priority),
        priorityRank p ≤ priorityRank (consolidateGroup t (t :: rest)).priority) ∧
      (consolidateGroup t (t :: rest)).source =
        joinPlus (firstSeenDedup ((t :: rest).map (·.source))) ∧
      (∀ s ∈ (t :: rest).map (·.source),
        strContains (consolidateGroup t (t :: rest)).source s = true) ∧
      (consolidateGroup t (t :: rest)).id = "consolidated-" ++ t.id) := by
  constructor
  · calc (consolidateDuplicates todos).length
        ≤ (groupByKey (fun t => normalizeForConsolidation t.content) todos).length := by
          apply flatMap_length_le_one
          intro kg
          rcases kg with ⟨k, g⟩
          match g with
          | [] => simp
          | [t] => simp
          | t :: t' :: rest => simp
      _ ≤ todos.length := groupByKey_length_le _ todos
  · intro k t rest hmem hrest
    have hout : consolidateGroup t (t :: rest) ∈ consolidateDuplicates todos := by
      unfold consolidateDuplicates
      apply List.mem_flatMap.mpr
      refine ⟨(k, t :: rest), hmem, ?_⟩
      match rest, hrest with
      | t' :: rest', _ => simp
    refine ⟨hout, ?_, ?_, rfl, ?_, rfl⟩
    · exact getHighestPriority_mem _ (by simp)
    · intro p hp
      exact getHighestPriority_le _ p (by simpa using hp)
    · intro s hs
      show strContains (joinPlus (firstSeenDedup ((t :: rest).map (·.source)))) s = true
      exact strContains_joinPlus s _ (firstSeenDedup_mem s _ (by simpa using hs))

/-- Witness for the C4 theorem: on the concrete duplicate pair the merged
record is emitted with the maximum priority, joined sources and derived
id. -/
theorem consolidation_merge_spec_witness :
    consolidateGroup dupA [dupA, dupB] ∈ consolidateDuplicates [dupA, dupB] ∧
    (consolidateGroup dupA [dupA, dupB]).priority ∈ [dupA, dupB].map (·.priority) ∧
    (∀ p ∈ [dupA, dupB].map (·.priority),
      priorityRank p ≤ priorityRank (consolidateGroup dupA [dupA, dupB]).priority) ∧
    (consolidateGroup dupA [dupA, dupB]).source =
      joinPlus (firstSeenDedup ([dupA, dupB].map (·.source))) ∧
    (∀ s ∈ [dupA, dupB].map (·.source),
      strContains (consolidateGroup dupA [dupA, dupB]).source s = true) ∧
    (consolidateGroup dupA [dupA, dupB]).id = "consolidated-" ++ dupA.id :=
  (consolidation_merge_spec [dupA, dupB]).2 "bug fix" dupA [dupB]
    (by decide) (by decide)

/-! ### Supporting lemmas for normalization (C8) -/

theorem listLexLe_total : ∀ as bs : List Char,
    listLexLe as bs = true ∨ listLexLe bs as = true := by
  intro as
  induction as with
  | nil => intro bs; left; rfl
  | cons a as ih =>
    intro bs
    cases bs with
    | nil => right; rfl
    | cons b bs =>
      simp only [listLexLe]
      rcases Nat.lt_trichotomy a.toNat b.toNat with h | h | h
      · left; simp [h]
      · have h1 : ¬ a.toNat < b.toNat := by omega
        have h2 : ¬ b.toNat < a.toNat := by omega
        rcases ih bs with hr | hr
        · left; simp [h1, h2, hr]
        · right; simp [h1, h2, hr]
      · right; simp [h]

theorem listLexLe_trans : ∀ as bs cs : List Char,
    listLexLe as bs = true → listLexLe bs cs = true → listLexLe as cs = true := by
  intro as
  induction as with
  | nil => intro bs cs _ _; rfl
  | cons a as ih =>
    intro bs cs h1 h2
    cases bs with
    | nil => simp [listLexLe] at h1
    | cons b bs =>
      cases cs with
      | nil => simp [listLexLe] at h2
      | cons c cs =>
        simp only [listLexLe] at h1 h2 ⊢
        by_cases hab : a.toNat < b.toNat
        · by_cases hbc : b.toNat < c.toNat
          · simp [show a.toNat < c.toNat by omega]
          · by_cases hcb : c.toNat < b.toNat
            · simp [hbc, hcb] at h2
            · have : b.toNat = c.toNat := by omega
              simp [show a.toNat < c.toNat by omega]
        · by_cases hba : b.toNat < a.toNat
          · simp [hab, hba] at h1
          · have hab' : a.toNat = b.toNat := by omega
            by_cases hbc : b.toNat < c.toNat
            · simp [show a.toNat < c.toNat by omega]
            · by_cases hcb : c.toNat < b.toNat
              · simp [hbc, hcb] at h2
              · have hbc' : b.toNat = c.toNat := by omega
                have g1 : ¬ a.toNat < c.toNat := by omega
                have g2 : ¬ c.toNat < a.toNat := by omega
                simp [hab, hba] at h1
                simp [hbc, hcb] at h2
                simp [g1, g2]
                exact ih bs cs h1 h2

theorem listLexLe_antisymm : ∀ as bs : List Char,
    listLexLe as bs = true → listLexLe bs as = true → as = bs := by
  intro as
  induction as with
  | nil =>
    intro bs _ h2
    cases bs with
    | nil => rfl
    | cons b bs => simp [listLexLe] at h2
  | cons a as ih =>
    intro bs h1 h2
    cases bs with
    | nil => simp [listLexLe] at h1
    | cons b bs =>
      simp only [listLexLe] at h1 h2
      by_cases hab : a.toNat < b.toNat
      · simp [show ¬ b.toNat < a.toNat by omega, hab] at h2
      · by_cases hba : b.toNat < a.toNat
        · simp [hab, hba] at h1
        · have he : a.toNat = b.toNat := by omega
          have hc : a = b := by
            have := congrArg Char.ofNat he
            simpa [Char.ofNat_toNat] using this
          simp [hab, hba] at h1 h2
          rw [hc, ih bs h1 h2]

instance : IsTotal (List Char) jsLeC :=
  ⟨fun a b => listLexLe_total a b⟩

instance : IsTrans (List Char) jsLeC :=
  ⟨fun a b c => listLexLe_trans a b c⟩

instance : IsAntisymm (List Char) jsLeC :=
  ⟨fun a b => listLexLe_antisymm a b⟩

/-- Sorting two permuted word lists with the JS order yields the same
list. -/
theorem sortWordsC_eq_of_perm (l₁ l₂ : List (List Char)) (h : l₁.Perm l₂) :
    sortWordsC l₁ = sortWordsC l₂ := by
  apply List.eq_of_perm_of_sorted
    (((List.perm_insertionSort jsLeC l₁).trans h).trans
      (List.perm_insertionSort jsLeC l₂).symm)
    (List.sorted_insertionSort jsLeC l₁)
    (List.sorted_insertionSort jsLeC l₂)

/-- A sorted list sorts to itself. -/
theorem sortWordsC_idem (l : List (List Char)) :
    sortWordsC (sortWordsC l) = sortWordsC l := by
  apply List.eq_of_perm_of_sorted (List.perm_insertionSort jsLeC (sortWordsC l))
    (List.sorted_insertionSort jsLeC (sortWordsC l))
    (List.sorted_insertionSort jsLeC l)

theorem char_toNat_ofNat (n : Nat) (h : n.isValidChar) : (Char.ofNat n).toNat = n := by
  have he : Char.ofNat n = Char.ofNatAux n h := dif_pos h
  rw [he]
  rfl

theorem char_le_iff_toNat_le (a b : Char) : a ≤ b ↔ a.toNat ≤ b.toNat := Iff.rfl

theorem lowerChar_lowerChar (c : Char) : lowerChar (lowerChar c) = lowerChar c := by
  unfold lowerChar
  split_ifs with h1 h2
  · exfalso
    obtain ⟨ha, hb⟩ := h1
    obtain ⟨ha2, hb2⟩ := h2
    have han : (65 : Nat) ≤ c.toNat := (char_le_iff_toNat_le 'A' c).mp ha
    have hbn : c.toNat ≤ (90 : Nat) := (char_le_iff_toNat_le c 'Z').mp hb
    have hvalid : (c.toNat + 32).isValidChar := by
      left
      show c.toNat + 32 < 0xd800
      omega
    have htn : (Char.ofNat (c.toNat + 32)).toNat = c.toNat + 32 := char_toNat_ofNat _ hvalid
    have hb2n : (Char.ofNat (c.toNat + 32)).toNat ≤ (90 : Nat) :=
      (char_le_iff_toNat_le _ 'Z').mp hb2
    rw [htn] at hb2n
    omega
  · rfl
  · rfl

theorem dropWhile_nonws_cons (c : Char) (cs : List Char) (h : isWsChar c = false) :
    (c :: cs).dropWhile isWsChar = c :: cs := by
  simp [List.dropWhile_cons, h]

theorem dropWhile_nonws_all (cs : List Char) (h : ∀ c ∈ cs, isWsChar c = false) :
    cs.dropWhile isWsChar = cs := by
  cases cs with
  | nil => rfl
  | cons c rest => exact dropWhile_nonws_cons c rest (h c (by simp))

theorem collapseGo_true_cons_nonws (c : Char) (cs : List Char) (h : isWsChar c = false) :
    collapseGo true (c :: cs) = collapseGo false (c :: cs) := by
  simp [collapseGo, h]

theorem collapseGo_cons_nonws (b : Bool) (c : Char) (l : List Char)
    (h : isWsChar c = false) :
    collapseGo b (c :: l) = c :: collapseGo false l := by
  cases b <;> simp [collapseGo, h]

theorem collapseGo_cons_ws (c : Char) (l : List Char) (h : isWsChar c = true) :
    collapseGo false (c :: l) = ' ' :: collapseGo true l := by
  simp [collapseGo, h]

theorem collapseGo_true_cons_ws (c : Char) (l : List Char) (h : isWsChar c = true) :
    collapseGo true (c :: l) = collapseGo true l := by
  simp [collapseGo, h]

theorem collapseGo_word (w : List Char) (hne : w ≠ [])
    (hw : ∀ c ∈ w, isWsChar c = false) :
    ∀ (cs : List Char) (b : Bool), collapseGo b (w ++ cs) = w ++ collapseGo false cs := by
  induction w with
  | nil => exact absurd rfl hne
  | cons c w' ih =>
    intro cs b
    have hc : isWsChar c = false := hw c (by simp)
    cases w' with
    | nil =>
      rw [List.cons_append, List.nil_append, collapseGo_cons_nonws b c cs hc]
      rfl
    | cons d w'' =>
      rw [List.cons_append, collapseGo_cons_nonws b c ((d :: w'') ++ cs) hc,
        ih (by simp) (fun x hx => hw x (List.mem_cons_of_mem _ hx)) cs false]
      rfl

theorem collapseGo_true_eq (cs : List Char) :
    collapseGo true cs = collapseWs (cs.dropWhile isWsChar) := by
  induction cs with
  | nil => rfl
  | cons c rest ih =>
    by_cases h : isWsChar c = true
    · rw [collapseGo_true_cons_ws c rest h, List.dropWhile_cons, if_pos h, ih]
    · have h' : isWsChar c = false := by simpa using h
      rw [collapseGo_true_cons_nonws c rest h', dropWhile_nonws_cons c rest h']
      rfl

theorem collapseGo_mem (c : Char) :
    ∀ (cs : List Char) (b : Bool), c ∈ collapseGo b cs →
      c = ' ' ∨ (c ∈ cs ∧ isWsChar c = false) := by
  intro cs
  induction cs with
  | nil => intro b h; simp [collapseGo] at h
  | cons d rest ih =>
    intro b h
    by_cases hd : isWsChar d = true
    · simp only [collapseGo, hd, if_true] at h
      cases b with
      | true =>
        rcases ih true h with h1 | h1
        · exact Or.inl h1
        · exact Or.inr ⟨List.mem_cons_of_mem _ h1.1, h1.2⟩
      | false =>
        rcases List.mem_cons.mp h with h1 | h1
        · exact Or.inl h1
        · rcases ih true h1 with h2 | h2
          · exact Or.inl h2
          · exact Or.inr ⟨List.mem_cons_of_mem _ h2.1, h2.2⟩
    · have hd' : isWsChar d = false := by simpa using hd
      simp only [collapseGo, hd', if_false] at h
      rcases List.mem_cons.mp h with h1 | h1
      · subst h1
        exact Or.inr ⟨by simp, hd'⟩
      · rcases ih false h1 with h2 | h2
        · exact Or.inl h2
        · exact Or.inr ⟨List.mem_cons_of_mem _ h2.1, h2.2⟩

theorem dropTrailingWs_nil : dropTrailingWs [] = [] := rfl

theorem dropTrailingWs_word (w Y : List Char) (hw : ∀ c ∈ w, isWsChar c = false) :
    dropTrailingWs (w ++ Y) = w ++ dropTrailingWs Y := by
  cases hwnil : w with
  | nil => simp [dropTrailingWs]
  | cons c w' =>
    rw [← hwnil]
    unfold dropTrailingWs
    rw [List.reverse_append, List.dropWhile_append]
    split_ifs with h
    · have hYrev : Y.reverse.dropWhile isWsChar = [] := by
        simpa [List.isEmpty_iff] using h
      have hwrev : w.reverse.dropWhile isWsChar = w.reverse := by
        apply dropWhile_nonws_all
        intro x hx
        exact hw x (by simpa using hx)
      rw [hwrev, hYrev]
      simp
    · rw [List.reverse_append]
      simp

theorem dropTrailingWs_sp_nil (Z : List Char) (h : dropTrailingWs Z = []) :
    dropTrailingWs (' ' :: Z) = [] := by
  unfold dropTrailingWs at *
  have hZ : Z.reverse.dropWhile isWsChar = [] := by
    have := congrArg List.reverse h
    simpa using this
  rw [show (' ' :: Z).reverse = Z.reverse ++ [' '] by simp]
  rw [List.dropWhile_append, hZ]
  simp [isWsChar]

theorem dropTrailingWs_sp_cons (Z : List Char) (h : dropTrailingWs Z ≠ []) :
    dropTrailingWs (' ' :: Z) = ' ' :: dropTrailingWs Z := by
  unfold dropTrailingWs at *
  have hZ : Z.reverse.dropWhile isWsChar ≠ [] := by
    intro hc
    exact h (by simp [hc])
  rw [show (' ' :: Z).reverse = Z.reverse ++ [' '] by simp]
  rw [List.dropWhile_append]
  rw [if_neg (by simpa [List.isEmpty_iff] using hZ)]
  simp

theorem dropTrailingWs_cons_nonws (c : Char) (Z : List Char) (h : isWsChar c = false) :
    dropTrailingWs (c :: Z) ≠ [] := by
  unfold dropTrailingWs
  rw [show (c :: Z).reverse = Z.reverse ++ [c] by simp]
  rw [List.dropWhile_append]
  split_ifs with hempty
  · simp [List.dropWhile_cons, h]
  · simp [List.isEmpty_iff] at hempty
    simp [hempty]

theorem trimWs_cons_ws (c : Char) (X : List Char) (h : isWsChar c = true) :
    trimWs (c :: X) = trimWs X := by
  unfold trimWs
  rw [List.dropWhile_cons]
  simp [h]

theorem trimWs_eq_dropTrailing (cs : List Char) :
    trimWs cs = dropTrailingWs (cs.dropWhile isWsChar) := rfl

theorem splitOnChar_ne_nil (sep : Char) (cs : List Char) : splitOnChar sep cs ≠ [] := by
  induction cs with
  | nil => simp [splitOnChar]
  | cons c rest ih =>
    simp only [splitOnChar]
    split_ifs
    · simp
    · cases h : splitOnChar sep rest <;> simp

theorem splitOnChar_sepFree (sep : Char) (w : List Char) (h : sep ∉ w) :
    splitOnChar sep w = [w] := by
  induction w with
  | nil => rfl
  | cons c w' ih =>
    have hc : ¬ c = sep := fun he => h (he ▸ List.mem_cons_self c w')
    have hw' : sep ∉ w' := fun hm => h (List.mem_cons_of_mem _ hm)
    simp only [splitOnChar, if_neg hc, ih hw']

theorem splitOnChar_cons_ne (sep c : Char) (rest : List Char) (hc : ¬ c = sep)
    (f : List Char) (fs : List (List Char)) (hres : splitOnChar sep rest = f :: fs) :
    splitOnChar sep (c :: rest) = (c :: f) :: fs := by
  simp only [splitOnChar, if_neg hc, hres]

theorem splitOnChar_word (sep : Char) (w tail : List Char) (h : sep ∉ w) :
    splitOnChar sep (w ++ sep :: tail) = w :: splitOnChar sep tail := by
  induction w with
  | nil => simp [splitOnChar]
  | cons c w' ih =>
    have hc : ¬ c = sep := fun he => h (he ▸ List.mem_cons_self c w')
    have hw' : sep ∉ w' := fun hm => h (List.mem_cons_of_mem _ hm)
    rw [List.cons_append]
    exact splitOnChar_cons_ne sep c _ hc _ _ (ih hw')

theorem splitOnChar_mem_sepFree (sep : Char) :
    ∀ (cs w : List Char), w ∈ splitOnChar sep cs → sep ∉ w := by
  intro cs
  induction cs with
  | nil =>
    intro w hw
    simp [splitOnChar] at hw
    simp [hw]
  | cons c rest ih =>
    intro w hw
    simp only [splitOnChar] at hw
    split_ifs at hw with hc
    · rcases List.mem_cons.mp hw with h1 | h1
      · simp [h1]
      · exact ih w h1
    · cases hres : splitOnChar sep rest with
      | nil => exact absurd hres (splitOnChar_ne_nil sep rest)
      | cons f fs =>
        rw [hres] at hw
        rcases List.mem_cons.mp hw with h1 | h1
        · subst h1
          intro hmem
          rcases List.mem_cons.mp hmem with h2 | h2
          · exact hc h2.symm
          · exact ih f (hres ▸ List.mem_cons_self f fs) h2
        · exact ih w (hres ▸ List.mem_cons_of_mem f h1)

theorem splitOnChar_mem_mem (sep : Char) :
    ∀ (cs w : List Char), w ∈ splitOnChar sep cs → ∀ c ∈ w, c ∈ cs := by
  intro cs
  induction cs with
  | nil =>
    intro w hw c hc
    simp [splitOnChar] at hw
    subst hw
    cases hc
  | cons d rest ih =>
    intro w hw c hc
    simp only [splitOnChar] at hw
    split_ifs at hw with hd
    · rcases List.mem_cons.mp hw with h1 | h1
      · subst h1; cases hc
      · exact List.mem_cons_of_mem _ (ih w h1 c hc)
    · cases hres : splitOnChar sep rest with
      | nil => exact absurd hres (splitOnChar_ne_nil sep rest)
      | cons f fs =>
        rw [hres] at hw
        rcases List.mem_cons.mp hw with h1 | h1
        · subst h1
          rcases List.mem_cons.mp hc with h2 | h2
          · simp [h2]
          · exact List.mem_cons_of_mem _
              (ih f (hres ▸ List.mem_cons_self f fs) c h2)
        · exact List.mem_cons_of_mem _
            (ih w (hres ▸ List.mem_cons_of_mem f h1) c hc)

theorem joinSpChars_mem (c : Char) :
    ∀ ws : List (List Char), c ∈ joinSpChars ws → c = ' ' ∨ ∃ w ∈ ws, c ∈ w := by
  intro ws
  induction ws with
  | nil => intro h; cases h
  | cons w rest ih =>
    intro h
    cases rest with
    | nil =>
      right
      exact ⟨w, by simp, by simpa [joinSpChars] using h⟩
    | cons b rest' =>
      have hj : joinSpChars (w :: b :: rest') = w ++ ' ' :: joinSpChars (b :: rest') := rfl
      rw [hj] at h
      rcases List.mem_append.mp h with h1 | h1
      · exact Or.inr ⟨w, by simp, h1⟩
      · rcases List.mem_cons.mp h1 with h2 | h2
        · exact Or.inl h2
        · rcases ih h2 with h3 | ⟨w', hw', hc⟩
          · exact Or.inl h3
          · exact Or.inr ⟨w', List.mem_cons_of_mem _ hw', hc⟩

theorem splitSp_joinSpChars (ws : List (List Char)) (hne : ws ≠ [])
    (hsf : ∀ w ∈ ws, ' ' ∉ w) : splitSp (joinSpChars ws) = ws := by
  induction ws with
  | nil => exact absurd rfl hne
  | cons w rest ih =>
    cases rest with
    | nil =>
      show splitOnChar ' ' w = [w]
      exact splitOnChar_sepFree ' ' w (hsf w (by simp))
    | cons b rest' =>
      have hj : joinSpChars (w :: b :: rest') = w ++ ' ' :: joinSpChars (b :: rest') := rfl
      rw [hj]
      show splitOnChar ' ' _ = _
      rw [splitOnChar_word ' ' w _ (hsf w (by simp))]
      have := ih (by simp) (fun x hx => hsf x (List.mem_cons_of_mem _ hx))
      rw [show splitSp (joinSpChars (b :: rest')) =
        splitOnChar ' ' (joinSpChars (b :: rest')) from rfl] at this
      rw [this]

theorem splitWsRuns_ne_nil : ∀ cs : List Char, splitWsRuns cs ≠ [] := by
  intro cs
  induction cs using splitWsRuns.induct with
  | case1 => simp [splitWsRuns]
  | case2 c rest h ih => simp [splitWsRuns, h]
  | case3 c rest h hres ih => simp [splitWsRuns, h, hres]
  | case4 c rest h w ws hres ih => simp [splitWsRuns, h, hres]

theorem splitWsRuns_cons_ws (c : Char) (rest : List Char) (h : isWsChar c = true) :
    splitWsRuns (c :: rest) = [] :: splitWsRuns (rest.dropWhile isWsChar) := by
  rw [splitWsRuns]
  simp [h]

theorem splitWsRuns_cons_nonws (c : Char) (rest : List Char) (h : isWsChar c = false)
    (f : List Char) (fs : List (List Char)) (hres : splitWsRuns rest = f :: fs) :
    splitWsRuns (c :: rest) = (c :: f) :: fs := by
  rw [splitWsRuns]
  simp [h, hres]

theorem splitWsRuns_word (w : List Char) (hw : ∀ c ∈ w, isWsChar c = false)
    (hne : w ≠ []) :
    ∀ (rest f : List Char) (fs : List (List Char)), splitWsRuns rest = f :: fs →
      splitWsRuns (w ++ rest) = (w ++ f) :: fs := by
  induction w with
  | nil => exact absurd rfl hne
  | cons c w' ih =>
    intro rest f fs hres
    have hc : isWsChar c = false := hw c (by simp)
    cases w' with
    | nil =>
      simpa using splitWsRuns_cons_nonws c rest hc f fs hres
    | cons d w'' =>
      have hrec := ih (fun x hx => hw x (List.mem_cons_of_mem _ hx)) (by simp) rest f fs hres
      rw [List.cons_append]
      rw [splitWsRuns_cons_nonws c ((d :: w'') ++ rest) hc ((d :: w'') ++ f) fs hrec]
      simp

theorem splitWsRuns_nil : splitWsRuns [] = [[]] := by
  simp [splitWsRuns]

theorem splitWsRuns_pure (w : List Char) (hw : ∀ c ∈ w, isWsChar c = false) :
    splitWsRuns w = [w] := by
  cases w with
  | nil => exact splitWsRuns_nil
  | cons c w' =>
    have := splitWsRuns_word (c :: w') hw (by simp) [] [] [] splitWsRuns_nil
    simpa using this

theorem splitWsRuns_props :
    ∀ (cs w : List Char), w ∈ splitWsRuns cs → ∀ c ∈ w, isWsChar c = false ∧ c ∈ cs := by
  intro cs
  induction cs using splitWsRuns.induct with
  | case1 =>
    intro w hw c hc
    simp [splitWsRuns] at hw
    subst hw
    cases hc
  | case2 d rest hd ih =>
    intro w hw c hc
    rw [splitWsRuns_cons_ws d rest hd] at hw
    rcases List.mem_cons.mp hw with h1 | h1
    · subst h1; cases hc
    · obtain ⟨hws, hmem⟩ := ih w h1 c hc
      refine ⟨hws, List.mem_cons_of_mem _ ?_⟩
      exact (List.dropWhile_sublist isWsChar).mem hmem
  | case3 d rest hd hres ih =>
    exact absurd hres (splitWsRuns_ne_nil rest)
  | case4 d rest hd f fs hres ih =>
    intro w hw c hc
    have hd' : isWsChar d = false := by simpa using hd
    rw [splitWsRuns_cons_nonws d rest hd' f fs hres] at hw
    rcases List.mem_cons.mp hw with h1 | h1
    · subst h1
      rcases List.mem_cons.mp hc with h2 | h2
      · subst h2
        exact ⟨hd', by simp⟩
      · obtain ⟨hws, hmem⟩ := ih f (hres ▸ List.mem_cons_self f fs) c h2
        exact ⟨hws, List.mem_cons_of_mem _ hmem⟩
    · obtain ⟨hws, hmem⟩ := ih w (hres ▸ List.mem_cons_of_mem f h1) c hc
      exact ⟨hws, List.mem_cons_of_mem _ hmem⟩

theorem joinSpChars_dropWhile_id (ws : List (List Char)) (hne : ws ≠ [])
    (hgood : ∀ w ∈ ws, w ≠ [] ∧ ∀ c ∈ w, isWsChar c = false) :
    (joinSpChars ws).dropWhile isWsChar = joinSpChars ws := by
  cases ws with
  | nil => exact absurd rfl hne
  | cons w rest =>
    obtain ⟨hwne, hwnws⟩ := hgood w (by simp)
    cases w with
    | nil => exact absurd rfl hwne
    | cons c w' =>
      have hc : isWsChar c = false := hwnws c (by simp)
      cases rest with
      | nil => exact dropWhile_nonws_cons c w' hc
      | cons b rest' =>
        have hj : joinSpChars ((c :: w') :: b :: rest') =
            c :: (w' ++ ' ' :: joinSpChars (b :: rest')) := rfl
        rw [hj]
        exact dropWhile_nonws_cons c _ hc

theorem splitWsRuns_joinSpChars (ws : List (List Char)) (hne : ws ≠ [])
    (hgood : ∀ w ∈ ws, w ≠ [] ∧ ∀ c ∈ w, isWsChar c = false) :
    splitWsRuns (joinSpChars ws) = ws := by
  induction ws with
  | nil => exact absurd rfl hne
  | cons w rest ih =>
    obtain ⟨hwne, hwnws⟩ := hgood w (by simp)
    cases rest with
    | nil =>
      show splitWsRuns (joinSpChars [w]) = [w]
      exact splitWsRuns_pure w hwnws
    | cons b rest' =>
      have hj : joinSpChars (w :: b :: rest') = w ++ ' ' :: joinSpChars (b :: rest') := rfl
      rw [hj]
      have hIH := ih (by simp) (fun x hx => hgood x (List.mem_cons_of_mem _ hx))
      have hhead : (joinSpChars (b :: rest')).dropWhile isWsChar = joinSpChars (b :: rest') :=
        joinSpChars_dropWhile_id (b :: rest') (by simp)
          (fun x hx => hgood x (List.mem_cons_of_mem _ hx))
      have hsp : splitWsRuns (' ' :: joinSpChars (b :: rest')) =
          [] :: splitWsRuns (joinSpChars (b :: rest')) := by
        rw [splitWsRuns_cons_ws ' ' _ (by decide), hhead]
      rw [splitWsRuns_word w hwnws hwne _ [] (b :: rest') (by rw [hsp, hIH])]
      simp

theorem dropWhile_head_not (p : Char → Bool) :
    ∀ (l : List Char) (d : Char) (tl : List Char), l.dropWhile p = d :: tl → p d = false := by
  intro l
  induction l with
  | nil => intro d tl h; simp at h
  | cons a l' ih =>
    intro d tl h
    rw [List.dropWhile_cons] at h
    split_ifs at h with ha
    · exact ih d tl h
    · cases h
      simpa using ha

/-- Normal form of the collapse-then-trim stage: it joins the nonempty
whitespace-separated runs with single spaces. -/
theorem trim_collapse_NF :
    ∀ (n : Nat) (cs : List Char), cs.length ≤ n →
      trimWs (collapseWs cs) =
        joinSpChars ((splitWsRuns cs).filter (fun w => !w.isEmpty)) := by
  intro n
  induction n with
  | zero =>
    intro cs h
    have h0 : cs = [] := List.length_eq_zero.mp (Nat.le_zero.mp h)
    subst h0
    rw [splitWsRuns_nil]
    rfl
  | succ n ih =>
    intro cs hlen
    cases cs with
    | nil =>
      rw [splitWsRuns_nil]
      rfl
    | cons c rest =>
      by_cases hwsc : isWsChar c = true
      · -- whitespace head: both sides reduce to the tail with its leading run dropped
        have hlhs : trimWs (collapseWs (c :: rest)) =
            trimWs (collapseWs (rest.dropWhile isWsChar)) := by
          show trimWs (collapseGo false (c :: rest)) = _
          rw [collapseGo_cons_ws c rest hwsc, collapseGo_true_eq rest]
          exact trimWs_cons_ws ' ' _ (by decide)
        have hrec := ih (rest.dropWhile isWsChar)
          (le_trans (length_dropWhile_le isWsChar rest) (by simpa using hlen))
        rw [hlhs, hrec, splitWsRuns_cons_ws c rest hwsc]
        simp
      · -- word head: peel the maximal word
        have hwsc' : isWsChar c = false := by simpa using hwsc
        have hpc : (fun d => !isWsChar d) c = true := by simp [hwsc']
        have hsplit : ((c :: rest).takeWhile (fun d => !isWsChar d)) ++
            ((c :: rest).dropWhile (fun d => !isWsChar d)) = c :: rest :=
          List.takeWhile_append_dropWhile _ _
        generalize hwdef : (c :: rest).takeWhile (fun d => !isWsChar d) = w at hsplit
        generalize hrdef : (c :: rest).dropWhile (fun d => !isWsChar d) = rest₁ at hsplit
        have hw_ne : w ≠ [] := by
          rw [← hwdef, List.takeWhile_cons, if_pos hpc]
          simp
        have hw_nws : ∀ x ∈ w, isWsChar x = false := by
          intro x hx
          rw [← hwdef] at hx
          have := List.mem_takeWhile_imp hx
          simpa using this
        have hw_head : ∃ w₂, w = c :: w₂ := by
          rw [← hwdef, List.takeWhile_cons, if_pos hpc]
          exact ⟨_, rfl⟩
        have hlen_eq : w.length + rest₁.length = rest.length + 1 := by
          have := congrArg List.length hsplit
          simpa using this
        have hcollapse : collapseWs (w ++ rest₁) = w ++ collapseWs rest₁ :=
          collapseGo_word w hw_ne hw_nws rest₁ false
        have htrim : ∀ Y : List Char, trimWs (w ++ Y) = w ++ dropTrailingWs Y := by
          intro Y
          obtain ⟨w₂, hw2⟩ := hw_head
          rw [trimWs_eq_dropTrailing, hw2, List.cons_append,
            dropWhile_nonws_cons c _ hwsc', ← List.cons_append, ← hw2,
            dropTrailingWs_word w Y hw_nws]
        cases hres1 : rest₁ with
        | nil =>
          have hweq : w = c :: rest := by
            rw [hres1] at hsplit
            simpa using hsplit
          rw [← hweq]
          have hcw : collapseWs w = w := by
            have h := collapseGo_word w hw_ne hw_nws [] false
            rw [List.append_nil] at h
            rw [show collapseWs w = collapseGo false w from rfl, h,
              show collapseGo false [] = [] from rfl, List.append_nil]
          have htw : trimWs w = w := by
            have := htrim []
            simpa [dropTrailingWs] using this
          rw [hcw, htw, splitWsRuns_pure w hw_nws]
          have : (List.filter (fun w => !w.isEmpty) [w]) = [w] := by
            simp [List.isEmpty_iff, hw_ne]
          rw [this]
          rfl
        | cons d rest₂ =>
          have hd : isWsChar d = true := by
            have := dropWhile_head_not (fun d => !isWsChar d) (c :: rest) d rest₂
              (by rw [hrdef, hres1])
            simpa using this
          have hY : collapseWs rest₁ = ' ' :: collapseWs (rest₂.dropWhile isWsChar) := by
            rw [hres1]
            show collapseGo false (d :: rest₂) = _
            rw [collapseGo_cons_ws d rest₂ hd, collapseGo_true_eq rest₂]
          have hfields : splitWsRuns (w ++ rest₁) =
              (w ++ []) :: splitWsRuns (rest₂.dropWhile isWsChar) := by
            apply splitWsRuns_word w hw_nws hw_ne
            rw [hres1]
            exact splitWsRuns_cons_ws d rest₂ hd
          cases hres' : rest₂.dropWhile isWsChar with
          | nil =>
            rw [← hsplit, hcollapse, htrim, hY, hres']
            rw [show collapseWs ([] : List Char) = [] from rfl]
            rw [show dropTrailingWs [' '] = [] by decide]
            rw [hfields, hres', splitWsRuns_nil]
            have : List.filter (fun w => !w.isEmpty) ((w ++ []) :: [[]]) = [w] := by
              simp [List.isEmpty_iff, hw_ne]
            rw [this]
            simp [joinSpChars]
          | cons e rest₃ =>
            have he : isWsChar e = false :=
              dropWhile_head_not isWsChar rest₂ e rest₃ hres'
            have hcollE : collapseWs (e :: rest₃) = e :: collapseGo false rest₃ :=
              collapseGo_cons_nonws false e rest₃ he
            have hYne : dropTrailingWs (collapseWs (e :: rest₃)) ≠ [] := by
              rw [hcollE]
              exact dropTrailingWs_cons_nonws e _ he
            have hrec : trimWs (collapseWs (e :: rest₃)) =
                joinSpChars ((splitWsRuns (e :: rest₃)).filter (fun w => !w.isEmpty)) := by
              apply ih
              have h1 : (rest₂.dropWhile isWsChar).length ≤ rest₂.length :=
                length_dropWhile_le isWsChar rest₂
              rw [hres'] at h1
              have h2 : rest₁.length = rest₂.length + 1 := by rw [hres1]; simp
              simp only [List.length_cons] at hlen ⊢
              have hwlen : 1 ≤ w.length := by
                cases w with
                | nil => exact absurd rfl hw_ne
                | cons _ _ => simp
              simp at h1
              omega
            have htc : trimWs (collapseWs (e :: rest₃)) =
                dropTrailingWs (collapseWs (e :: rest₃)) := by
              rw [trimWs_eq_dropTrailing, hcollE, dropWhile_nonws_cons e _ he]
            obtain ⟨f, fs, hf⟩ :
                ∃ f fs, splitWsRuns rest₃ = f :: fs := by
              cases hx : splitWsRuns rest₃ with
              | nil => exact absurd hx (splitWsRuns_ne_nil rest₃)
              | cons f fs => exact ⟨f, fs, rfl⟩
            have hfieldsE : splitWsRuns (e :: rest₃) = (e :: f) :: fs :=
              splitWsRuns_cons_nonws e rest₃ he f fs hf
            rw [← hsplit, hcollapse, htrim, hY, hres',
              dropTrailingWs_sp_cons _ hYne, hfields, hres']
            rw [← htc, hrec, hfieldsE]
            have hkeep : List.filter (fun w => !w.isEmpty) ((w ++ []) :: (e :: f) :: fs) =
                w :: List.filter (fun w => !w.isEmpty) ((e :: f) :: fs) := by
              simp [List.filter_cons, List.isEmpty_iff, hw_ne]
            rw [hkeep]
            have hkeep2 : List.filter (fun w => !w.isEmpty) ((e :: f) :: fs) =
                (e :: f) :: List.filter (fun w => !w.isEmpty) fs := by
              simp [List.filter_cons]
            rw [hkeep2]
            rfl

theorem clean_eq_joinFields (cs : List Char) :
    clean cs = joinSpChars
      ((splitWsRuns (removePunct (cs.map lowerChar))).filter (fun w => !w.isEmpty)) :=
  trim_collapse_NF (removePunct (cs.map lowerChar)).length _ le_rfl

theorem cleanInput_props (cs : List Char) (c : Char)
    (h : c ∈ removePunct (cs.map lowerChar)) :
    (isWordChar c || isWsChar c) = true ∧ lowerChar c = c := by
  unfold removePunct at h
  have hmem := List.mem_of_mem_filter h
  have hkeep := List.of_mem_filter h
  obtain ⟨c', _, hc'⟩ := List.mem_map.mp hmem
  exact ⟨hkeep, hc' ▸ lowerChar_lowerChar c'⟩

theorem goodFields_props (cs : List Char) (w : List Char)
    (hw : w ∈ (splitWsRuns (removePunct (cs.map lowerChar))).filter (fun w => !w.isEmpty)) :
    w ≠ [] ∧ ∀ c ∈ w, isWordChar c = true ∧ lowerChar c = c ∧ isWsChar c = false := by
  have hmem := List.mem_of_mem_filter hw
  have hne : w ≠ [] := by
    have := List.of_mem_filter hw
    simpa [List.isEmpty_iff] using this
  refine ⟨hne, fun c hc => ?_⟩
  obtain ⟨hnws, hin⟩ := splitWsRuns_props _ w hmem c hc
  obtain ⟨hkeep, hfix⟩ := cleanInput_props cs c hin
  have hword : isWordChar c = true := by
    rcases Bool.or_eq_true_iff.mp hkeep with h | h
    · exact h
    · rw [h] at hnws; cases hnws
  exact ⟨hword, hfix, hnws⟩

/-- Either the cleaned content is empty (sole word `[]`), or the word
list is exactly the nonempty whitespace runs, which are nonempty words of
lower-fixed word characters. -/
theorem consolidationWords_cases (s : String) :
    (consolidationWords s = [[]] ∧ clean s.data = []) ∨
    (consolidationWords s =
        (splitWsRuns (removePunct (s.data.map lowerChar))).filter (fun w => !w.isEmpty) ∧
      (splitWsRuns (removePunct (s.data.map lowerChar))).filter (fun w => !w.isEmpty) ≠ []) := by
  by_cases hgf : (splitWsRuns (removePunct (s.data.map lowerChar))).filter
      (fun w => !w.isEmpty) = []
  · left
    have hclean : clean s.data = [] := by
      rw [clean_eq_joinFields, hgf]
      rfl
    constructor
    · show splitSp (clean s.data) = [[]]
      rw [hclean]
      rfl
    · exact hclean
  · right
    refine ⟨?_, hgf⟩
    show splitSp (clean s.data) = _
    rw [clean_eq_joinFields]
    apply splitSp_joinSpChars _ hgf
    intro w hw hsp
    obtain ⟨_, hchars⟩ := goodFields_props s.data w hw
    obtain ⟨_, _, hnws⟩ := hchars ' ' hsp
    simp [isWsChar] at hnws

/-- The words of a normalized key are exactly the sorted words of the
original content. -/
theorem consolidationWords_normalize (s : String) :
    consolidationWords (normalizeForConsolidation s) =
      sortWordsC (consolidationWords s) := by
  rcases consolidationWords_cases s with ⟨hcw, _⟩ | ⟨hcw, hne⟩
  · have hn : normalizeForConsolidation s = "" := by
      show (⟨joinSpChars (sortWordsC (consolidationWords s))⟩ : String) = ""
      rw [hcw]
      decide
    rw [hn, hcw]
    decide
  · generalize hGF : (splitWsRuns (removePunct (s.data.map lowerChar))).filter
      (fun w => !w.isEmpty) = GF at hcw hne
    have hperm : (sortWordsC GF).Perm GF := List.perm_insertionSort jsLeC GF
    have hprops : ∀ w ∈ sortWordsC GF,
        w ≠ [] ∧ ∀ c ∈ w, isWordChar c = true ∧ lowerChar c = c ∧ isWsChar c = false := by
      intro w hw
      have hw' : w ∈ (splitWsRuns (removePunct (s.data.map lowerChar))).filter
          (fun w => !w.isEmpty) := by
        rw [hGF]
        exact hperm.mem_iff.mp hw
      exact goodFields_props s.data w hw'
    have hne' : sortWordsC GF ≠ [] := by
      intro h
      apply hne
      have h0 : ([] : List (List Char)).Perm GF := h ▸ hperm
      exact h0.symm.eq_nil
    have hn : normalizeForConsolidation s = ⟨joinSpChars (sortWordsC GF)⟩ := by
      show (⟨joinSpChars (sortWordsC (consolidationWords s))⟩ : String) = _
      rw [hcw]
    rw [hn, hcw]
    show splitSp (clean (joinSpChars (sortWordsC GF))) = sortWordsC GF
    have hmapid : (joinSpChars (sortWordsC GF)).map lowerChar = joinSpChars (sortWordsC GF) := by
      have : ∀ c ∈ joinSpChars (sortWordsC GF), lowerChar c = c := by
        intro c hc
        rcases joinSpChars_mem c _ hc with rfl | ⟨w, hw, hcw'⟩
        · rfl
        · exact ((hprops w hw).2 c hcw').2.1
      calc (joinSpChars (sortWordsC GF)).map lowerChar
          = (joinSpChars (sortWordsC GF)).map id := List.map_congr_left (fun a ha => this a ha)
        _ = joinSpChars (sortWordsC GF) := List.map_id _
    have hpunctid : removePunct (joinSpChars (sortWordsC GF)) = joinSpChars (sortWordsC GF) := by
      apply List.filter_eq_self.mpr
      intro c hc
      rcases joinSpChars_mem c _ hc with rfl | ⟨w, hw, hcw'⟩
      · decide
      · simp [((hprops w hw).2 c hcw').1]
    have hgood : ∀ w ∈ sortWordsC GF, w ≠ [] ∧ ∀ c ∈ w, isWsChar c = false := by
      intro w hw
      exact ⟨(hprops w hw).1, fun c hc => ((hprops w hw).2 c hc).2.2⟩
    have hcleanid : clean (joinSpChars (sortWordsC GF)) = joinSpChars (sortWordsC GF) := by
      unfold clean
      rw [hmapid, hpunctid]
      have hNF := trim_collapse_NF (joinSpChars (sortWordsC GF)).length
        (joinSpChars (sortWordsC GF)) le_rfl
      rw [hNF, splitWsRuns_joinSpChars _ hne' hgood]
      have : (sortWordsC GF).filter (fun w => !w.isEmpty) = sortWordsC GF := by
        apply List.filter_eq_self.mpr
        intro w hw
        simpa [List.isEmpty_iff] using (hprops w hw).1
      rw [this]
    rw [hcleanid]
    apply splitSp_joinSpChars _ hne'
    intro w hw hsp
    have := ((hprops w hw).2 ' ' hsp).2.2
    simp [isWsChar] at this

/-- **C8.** The consolidation normalization is idempotent, and any two
contents whose cleaned word bags are permutations of each other normalize
to the same key. -/
theorem normalize_idempotent_and_perm_invariant :
    (∀ s : String,
      normalizeForConsolidation (normalizeForConsolidation s) = normalizeForConsolidation s) ∧
    (∀ s t : String, (consolidationWords s).Perm (consolidationWords t) →
      normalizeForConsolidation s = normalizeForConsolidation t) := by
  constructor
  · intro s
    show (⟨joinSpChars (sortWordsC (consolidationWords (normalizeForConsolidation s)))⟩ : String) =
      normalizeForConsolidation s
    rw [consolidationWords_normalize s, sortWordsC_idem]
    rfl
  · intro s t h
    show (⟨joinSpChars (sortWordsC (consolidationWords s))⟩ : String) =
      ⟨joinSpChars (sortWordsC (consolidationWords t))⟩
    rw [sortWordsC_eq_of_perm _ _ h]

/-- Witness for the C8 theorem: `"fix bug now"` and `"Bug Fix Now!"` have
permuted word bags and share the key `"bug fix now"`; normalizing twice
changes nothing. -/
theorem normalize_idempotent_and_perm_invariant_witness :
    normalizeForConsolidation "fix bug now" = normalizeForConsolidation "Bug Fix Now!" ∧
    normalizeForConsolidation (normalizeForConsolidation "Bug Fix Now!") =
      normalizeForConsolidation "Bug Fix Now!" ∧
    normalizeForConsolidation "Bug Fix Now!" = "bug fix now" :=
  ⟨normalize_idempotent_and_perm_invariant.2 "fix bug now" "Bug Fix Now!" (by decide),
   normalize_idempotent_and_perm_invariant.1 "Bug Fix Now!",
   by decide⟩

/-! ### Supporting lemmas for the extraction length filters (C3) -/

theorem trimWs_eq_self (cs : List Char)
    (hh : ∀ d tl, cs = d :: tl → isWsChar d = false)
    (hl : ∀ d, cs.getLast? = some d → isWsChar d = false) :
    trimWs cs = cs := by
  have h1 : cs.dropWhile isWsChar = cs := by
    cases cs with
    | nil => rfl
    | cons d tl => exact dropWhile_nonws_cons d tl (hh d tl rfl)
  unfold trimWs
  rw [h1]
  have h2 : cs.reverse.dropWhile isWsChar = cs.reverse := by
    cases hrev : cs.reverse with
    | nil => rfl
    | cons d tl =>
      apply dropWhile_nonws_cons
      apply hl
      rw [← List.head?_reverse, hrev]
      rfl
  rw [h2, List.reverse_reverse]

theorem getLast?_dropWhile (p : Char → Bool) (cs : List Char)
    (h : cs.dropWhile p ≠ []) : (cs.dropWhile p).getLast? = cs.getLast? := by
  conv_rhs => rw [← List.takeWhile_append_dropWhile (p := p) (l := cs)]
  rw [List.getLast?_append]
  cases hx : (cs.dropWhile p).getLast? with
  | none =>
    exact absurd (List.getLast?_eq_none_iff.mp hx) h
  | some x => simp [Option.or]

theorem trimWs_head (cs : List Char) (d : Char) (tl : List Char)
    (h : trimWs cs = d :: tl) : isWsChar d = false := by
  unfold trimWs at h
  have hrev : ((cs.dropWhile isWsChar).reverse.dropWhile isWsChar) = (d :: tl).reverse := by
    have := congrArg List.reverse h
    simpa using this
  have hne : ((cs.dropWhile isWsChar).reverse.dropWhile isWsChar) ≠ [] := by
    rw [hrev]
    simp
  have hlast : ((cs.dropWhile isWsChar).reverse.dropWhile isWsChar).getLast? =
      (cs.dropWhile isWsChar).reverse.getLast? := getLast?_dropWhile _ _ hne
  rw [hrev] at hlast
  have hd : (d :: tl).reverse.getLast? = some d := by
    rw [List.getLast?_reverse]
    rfl
  rw [hd] at hlast
  have hrevlast : (cs.dropWhile isWsChar).reverse.getLast? =
      (cs.dropWhile isWsChar).head? := by
    rw [List.getLast?_reverse]
  rw [hrevlast] at hlast
  cases hdw : cs.dropWhile isWsChar with
  | nil => rw [hdw] at hlast; cases hlast
  | cons e etl =>
    rw [hdw] at hlast
    have : e = d := by simpa using hlast.symm
    subst this
    exact dropWhile_head_not isWsChar cs e etl hdw

theorem trimWs_last (cs : List Char) (d : Char)
    (h : (trimWs cs).getLast? = some d) : isWsChar d = false := by
  unfold trimWs at h
  rw [List.getLast?_reverse] at h
  cases hdw : (cs.dropWhile isWsChar).reverse.dropWhile isWsChar with
  | nil => rw [hdw] at h; cases h
  | cons e etl =>
    rw [hdw] at h
    have : e = d := by simpa using h
    subst this
    exact dropWhile_head_not isWsChar _ e etl hdw

theorem trimWs_idem (cs : List Char) : trimWs (trimWs cs) = trimWs cs :=
  trimWs_eq_self (trimWs cs) (fun d tl h => trimWs_head cs d tl h)
    (fun d h => trimWs_last cs d h)

theorem trimStr_idem (s : String) : trimStr (trimStr s) = trimStr s := by
  show (⟨trimWs (trimStr s).data⟩ : String) = ⟨trimWs s.data⟩
  show (⟨trimWs (trimWs s.data)⟩ : String) = ⟨trimWs s.data⟩
  rw [trimWs_idem]

theorem foldl_preserve {α β : Type _} (f : β → α → β) (P : β → Prop)
    (h : ∀ st a, P st → P (f st a)) :
    ∀ (l : List α) (st : β), P st → P (l.foldl f st) := by
  intro l
  induction l with
  | nil => intro st hst; exact hst
  | cons a rest ih => intro st hst; exact ih (f st a) (h st a hst)

theorem emitCapture_preserve (P : TodoItem → Prop)
    (hbuild : ∀ idc cap, 3 < (trimStr cap).length → P (buildContextTodo idc (trimStr cap))) :
    ∀ (st : Nat × List TodoItem) (cap : String),
      (∀ t ∈ st.2, P t) → ∀ t ∈ (emitCapture st cap).2, P t := by
  intro st cap hst t ht
  simp only [emitCapture] at ht
  split_ifs at ht with hlen
  · simp only at ht
    rcases List.mem_append.mp ht with h1 | h1
    · exact hst t h1
    · have : t = buildContextTodo st.1 (trimStr cap) := by simpa using h1
      subst this
      exact hbuild st.1 cap hlen
  · exact hst t ht

theorem dedupTodos_go_subset (t : TodoItem) :
    ∀ (l : List TodoItem) (seen : List String), t ∈ dedupTodos.go seen l → t ∈ l := by
  intro l
  induction l with
  | nil => intro seen h; cases h
  | cons a rest ih =>
    intro seen h
    simp only [dedupTodos.go] at h
    split_ifs at h with hs
    · exact List.mem_cons_of_mem _ (ih seen h)
    · rcases List.mem_cons.mp h with h1 | h1
      · exact h1 ▸ List.mem_cons_self _ _
      · exact List.mem_cons_of_mem _ (ih _ h1)

theorem analyzeTodos_content_trimmed_long (context : String) (t : TodoItem)
    (h : t ∈ (analyzeTodos context).todos) :
    t.content = trimStr t.content ∧ 3 < t.content.length := by
  unfold analyzeTodos at h
  simp only at h
  have h2 := dedupTodos_go_subset t _ _ h
  have hinv := foldl_preserve
    (fun st line => (lineCaptures line).foldl emitCapture st)
    (fun st => ∀ x ∈ st.2, x.content = trimStr x.content ∧ 3 < x.content.length)
    (fun st line hst =>
      foldl_preserve emitCapture _
        (emitCapture_preserve _
          (fun idc cap hlen => by
            constructor
            · show trimStr cap = trimStr (trimStr cap)
              rw [trimStr_idem]
            · exact hlen))
        (lineCaptures line) st hst)
    (splitOnChar '\n' context.data) (1, []) (by intro x hx; cases hx)
  exact hinv t h2

/-- **C3 (amended).** Context extraction keeps only captures whose trimmed
content is strictly longer than 3 characters, but grep-result parsing
discards only content shorter than 3 characters (so trimmed content of
length exactly 3 is emitted), and markdown checkbox parsing applies no
minimum-length filter at all (a 2-character task is emitted). -/
theorem extraction_minlen_by_extractor :
    (∀ (context : String) (t : TodoItem), t ∈ (analyzeTodos context).todos →
      3 < (trimStr t.content).length) ∧
    (∀ (idc : Nat) (g : GrepResult) (t : TodoItem), parseGrepResult idc g = some t →
      3 ≤ t.content.length) ∧
    ((parseGrepResult 1 { line := 5, content := "TODO: abc", file := "f.ts", match_ := "abc" }).map
      (·.content) = some "abc") ∧
    ((parseCheckboxTodo 1 "- [ ] ab" "notes.md" 1 "" .medium).map (·.content) = some "ab") := by
  refine ⟨?_, ?_, by decide, by decide⟩
  · intro context t h
    obtain ⟨heq, hlen⟩ := analyzeTodos_content_trimmed_long context t h
    rw [← heq]
    exact hlen
  · intro idc g t h
    unfold parseGrepResult at h
    cases hm : matchMarkerAnywhere g.content.data with
    | none => rw [hm] at h; cases h
    | some cap =>
      rw [hm] at h
      dsimp only at h
      split_ifs at h with h1 h2
      simp only [Option.some.injEq] at h
      subst h
      dsimp only
      omega

/-- Witness for the C3 theorem: a context extraction emitting a long
record, and a grep parse emitting a length-3 record. -/
theorem extraction_minlen_by_extractor_witness :
    (∀ t ∈ (analyzeTodos "TODO: refresh the cache").todos, 3 < (trimStr t.content).length) ∧
    3 ≤ ((parseGrepResult 1
      { line := 5, content := "TODO: abc", file := "f.ts", match_ := "abc" }).map
        (fun t => t.content.length)).getD 0 :=
  ⟨fun t ht => extraction_minlen_by_extractor.1 "TODO: refresh the cache" t ht,
   by
    have := extraction_minlen_by_extractor.2.1 1
      { line := 5, content := "TODO: abc", file := "f.ts", match_ := "abc" }
    rw [show parseGrepResult 1 { line := 5, content := "TODO: abc", file := "f.ts", match_ := "abc" } =
      some { id := "todo-1", content := "abc", priority := .medium, category := "general",
             source := "codebase", file := some "f.ts", line := some 5 } from by decide] at this ⊢
    simpa using this _ rfl⟩

/-- **C3 (counterexample).** The markdown checkbox parser emits a record
whose trimmed content has length 2 ≤ 3 instead of discarding it. -/
theorem extraction_minlen_counterexample :
    parseCheckboxTodo 1 "- [ ] ab" "notes.md" 1 "" .medium =
      some { id := "md-checkbox-1", content := "ab", priority := .medium,
             category := "general", source := "markdown-checkbox",
             file := some "notes.md", line := some 1,
             metadata := some { section_ := "", completed := false, indentLevel := 0,
                                originalLine := "- [ ] ab" } } ∧
    (trimStr "ab").length ≤ 3 := by
  constructor
  · decide
  · decide

/-- **C7 (amended).** On the input
`"TODO: Fix auth bug\nFIXME: Optimize database queries\nSecurity issue: validate input properly"`
context extraction yields exactly three TodoRecords — `"Fix auth bug"`
(from the TODO marker), `"auth bug"` (from the imperative-verb pattern on
the same line) and `"Optimize database queries"` — all with priority
medium; no record is produced for the `"Security issue:"` line because no
extraction pattern matches it. -/
theorem contextExtraction_scenario :
    (analyzeTodos
        "TODO: Fix auth bug\nFIXME: Optimize database queries\nSecurity issue: validate input properly").todos =
      [{ id := "context-1", content := "Fix auth bug", priority := .medium,
         category := "bug-fix", source := "current-context" },
       { id := "context-2", content := "auth bug", priority := .medium,
         category := "bug-fix", source := "current-context" },
       { id := "context-3", content := "Optimize database queries", priority := .medium,
         category := "refactoring", source := "current-context" }] ∧
    (analyzeTodos
        "TODO: Fix auth bug\nFIXME: Optimize database queries\nSecurity issue: validate input properly").summary =
      { total := 3, high_priority := 0, medium_priority := 3, low_priority := 0 } := by
  constructor
  · decide
  · decide

/-- **C7 (counterexample).** No extracted record on that input mentions
`"validate input"` at all — in particular there is no high-priority
record for `"validate input properly"`. -/
theorem contextExtraction_scenario_counterexample :
    ((analyzeTodos
        "TODO: Fix auth bug\nFIXME: Optimize database queries\nSecurity issue: validate input properly").todos.all
      (fun t => !strContains t.content "validate input")) = true ∧
    ((analyzeTodos
        "TODO: Fix auth bug\nFIXME: Optimize database queries\nSecurity issue: validate input properly").todos.all
      (fun t => !(t.priority = Priority.high))) = true := by
  constructor
  · decide
  · decide

/-! ### Supporting computations for duplicate detection (C10) -/

theorem wordSet_eval (s : String) (ws : List (List Char))
    (hne : ws ≠ []) (hgood : ∀ w ∈ ws, w ≠ [] ∧ ∀ c ∈ w, isWsChar c = false)
    (hdata : (lowerStr s).data = joinSpChars ws) :
    wordSet s = firstSeenDedup (ws.map (fun w => (⟨w⟩ : String))) := by
  unfold wordSet
  rw [hdata, splitWsRuns_joinSpChars ws hne hgood]

theorem wordSet_hyphA : wordSet hyphA.content = ["fix", "auth-bug"] := by
  rw [wordSet_eval hyphA.content [['f','i','x'], ['a','u','t','h','-','b','u','g']]
      (by decide) (by decide) (by decide)]
  decide

theorem wordSet_hyphB : wordSet hyphB.content = ["fix", "auth", "bug"] := by
  rw [wordSet_eval hyphB.content [['f','i','x'], ['a','u','t','h'], ['b','u','g']]
      (by decide) (by decide) (by decide)]
  decide

theorem wordSet_dupW1 : wordSet dupW1.content = ["fix", "bug"] := by
  rw [wordSet_eval dupW1.content [['f','i','x'], ['b','u','g']]
      (by decide) (by decide) (by decide)]
  decide

theorem wordSet_dupW2 : wordSet dupW2.content = ["fix", "bug"] := by
  rw [wordSet_eval dupW2.content [['f','i','x'], ['b','u','g']]
      (by decide) (by decide) (by decide)]
  decide

theorem calcSim_hyph : calculateGroupSimilarity [hyphA, hyphB] = 1/4 := by
  show jaccardSim hyphA hyphB = 1/4
  simp only [jaccardSim]
  rw [wordSet_hyphA, wordSet_hyphB]
  rw [show List.filter (fun w => (["fix", "auth", "bug"] : List String).contains w)
        ["fix", "auth-bug"] = ["fix"] from by decide,
      show firstSeenDedup ((["fix", "auth-bug"] : List String) ++ ["fix", "auth", "bug"]) =
        ["fix", "auth-bug", "auth", "bug"] from by decide]
  norm_num

theorem calcSim_dupW : calculateGroupSimilarity [dupW1, dupW2] = 1 := by
  show jaccardSim dupW1 dupW2 = 1
  simp only [jaccardSim]
  rw [wordSet_dupW1, wordSet_dupW2]
  rw [show List.filter (fun w => (["fix", "bug"] : List String).contains w)
        ["fix", "bug"] = ["fix", "bug"] from by decide,
      show firstSeenDedup ((["fix", "bug"] : List String) ++ ["fix", "bug"]) =
        ["fix", "bug"] from by decide]
  norm_num

theorem dupGroupOf_hyph : dupGroupOf ("fix auth bug", [hyphA, hyphB]) = none := by
  unfold dupGroupOf
  dsimp only
  rw [calcSim_hyph,
      if_pos (show (1 : Nat) < List.length [hyphA, hyphB] from by decide),
      if_neg (show ¬ ((4 : ℚ)/5 < 1/4) from by norm_num)]

/-- **C10.** Every duplicate group recorded by the cleanup duplicate
detection has at least two members and similarity strictly above 0.8,
where the similarity is the Jaccard word overlap of the group's first two
members only; members beyond the second never influence the score, and
records with identical normalized content but first-pair overlap ≤ 0.8
(hyphenation) produce no group. -/
theorem dupGroups_spec (analysis : CodebaseTodoAnalysis) :
    (∀ g ∈ dupGroups analysis,
      2 ≤ g.todos.length ∧ (4 : ℚ)/5 < g.similarity ∧
      ∃ t1 t2 rest, g.todos = t1 :: t2 :: rest ∧ g.similarity = jaccardSim t1 t2) ∧
    (∀ (t1 t2 : TodoItem) (rest rest' : List TodoItem),
      calculateGroupSimilarity (t1 :: t2 :: rest) =
        calculateGroupSimilarity (t1 :: t2 :: rest')) ∧
    (normalizeTodoContent "fix auth-bug" = normalizeTodoContent "fix auth bug" ∧
      dupGroups hyphenAnalysis = []) := by
  refine ⟨?_, ?_, by decide, ?_⟩
  · intro g hg
    unfold dupGroups at hg
    obtain ⟨kg, hkg, hmap⟩ := List.mem_filterMap.mp hg
    unfold dupGroupOf at hmap
    split_ifs at hmap with h1 h2
    simp only [Option.some.injEq] at hmap
    subst hmap
    refine ⟨h1, h2, ?_⟩
    match kg, h1 with
    | (k, t1 :: t2 :: rest), _ => exact ⟨t1, t2, rest, rfl, rfl⟩
  · intro t1 t2 rest rest'
    rfl
  · unfold dupGroups
    rw [show groupByKey (fun t => normalizeTodoContent t.content)
          (getAllTodos hyphenAnalysis) = [("fix auth bug", [hyphA, hyphB])] from by decide]
    simp only [List.filterMap_cons, dupGroupOf_hyph, List.filterMap_nil]

/-- Witness for the C10 theorem: the identical pair `"fix bug"` forms one
group with similarity 1. -/
theorem dupGroups_spec_witness :
    2 ≤ ({ normalizedContent := "fix bug"
           todos := [dupW1, dupW2]
           similarity := 1
           recommendedAction := "Keep context version, remove file duplicates" } :
        DuplicateGroup).todos.length ∧
    (4 : ℚ)/5 < ({ normalizedContent := "fix bug"
                   todos := [dupW1, dupW2]
                   similarity := 1
                   recommendedAction := "Keep context version, remove file duplicates" } :
        DuplicateGroup).similarity ∧
    ∃ t1 t2 rest,
      ({ normalizedContent := "fix bug"
         todos := [dupW1, dupW2]
         similarity := 1
         recommendedAction := "Keep context version, remove file duplicates" } :
        DuplicateGroup).todos = t1 :: t2 :: rest ∧
      ({ normalizedContent := "fix bug"
         todos := [dupW1, dupW2]
         similarity := 1
         recommendedAction := "Keep context version, remove file duplicates" } :
        DuplicateGroup).similarity = jaccardSim t1 t2 :=
  (dupGroups_spec dupAnalysisW).1 _ (by
    unfold dupGroups
    refine List.mem_filterMap.mpr ⟨("fix bug", [dupW1, dupW2]), by decide, ?_⟩
    unfold dupGroupOf
    dsimp only
    rw [calcSim_dupW,
        if_pos (show (1 : Nat) < List.length [dupW1, dupW2] from by decide),
        if_pos (show (4 : ℚ)/5 < 1 from by norm_num)]
    rfl)

/-! ### Supporting lemmas for the cleanup recommendations (C5) -/

theorem filterMap_none {α β : Type} (f : α → Option β) (h : ∀ a, f a = none) :
    ∀ l : List α, l.filterMap f = [] := by
  intro l
  induction l with
  | nil => rfl
  | cons a l ih => simp only [List.filterMap_cons, h a]; exact ih

theorem detectStale_grepErr (o : String) (a : CodebaseTodoAnalysis) (r : TodoCleanupReport) :
    detectStaleAndCompleted lifecycleEnvGrepErr o a r = r := by
  unfold detectStaleAndCompleted
  have hstep : ∀ (todo : TodoItem) (st : List StaleItem × List CompletedItem),
      (extractCodeReferences todo.content).foldl
        (staleCompletedStep lifecycleEnvGrepErr o todo) st = st := by
    intro todo st
    generalize extractCodeReferences todo.content = l
    induction l generalizing st with
    | nil => rfl
    | cons ref rest ih =>
      rw [List.foldl_cons, show staleCompletedStep lifecycleEnvGrepErr o todo st ref = st
            from rfl]
      exact ih st
  have hfold : ∀ (l : List TodoItem) (st : List StaleItem × List CompletedItem),
      l.foldl (fun st todo =>
        (extractCodeReferences todo.content).foldl
          (staleCompletedStep lifecycleEnvGrepErr o todo) st) st = st := by
    intro l
    induction l with
    | nil => exact fun st => rfl
    | cons t rest ih =>
      intro st
      rw [List.foldl_cons, hstep]
      exact ih st
  rw [hfold]

theorem findSupersession_grepErr (o : String) (todo : TodoItem) :
    ∀ kws : List String, findSupersession lifecycleEnvGrepErr o todo kws = none := by
  intro kws
  induction kws with
  | nil => rfl
  | cons kw rest ih =>
    rw [show findSupersession lifecycleEnvGrepErr o todo (kw :: rest) =
          findSupersession lifecycleEnvGrepErr o todo rest from rfl]
    exact ih

theorem detectSuperseded_grepErr (o : String) (a : CodebaseTodoAnalysis)
    (r : TodoCleanupReport) :
    detectSuperseded lifecycleEnvGrepErr o a r = r := by
  unfold detectSuperseded
  rw [filterMap_none _ (fun todo => findSupersession_grepErr o todo _), List.append_nil]

theorem brokenForTodo_grepErr (o : String) (todo : TodoItem) :
    brokenForTodo lifecycleEnvGrepErr o todo = [] := by
  unfold brokenForTodo
  refine List.append_eq_nil.mpr
    ⟨List.filterMap_eq_nil.mpr (fun a _ => rfl), List.filterMap_eq_nil.mpr (fun a _ => rfl)⟩

theorem detectBroken_grepErr (o : String) (a : CodebaseTodoAnalysis)
    (r : TodoCleanupReport) :
    detectBrokenReferences lifecycleEnvGrepErr o a r = r := by
  unfold detectBrokenReferences
  have h : ∀ l : List TodoItem, l.flatMap (brokenForTodo lifecycleEnvGrepErr o) = [] := by
    intro l
    induction l with
    | nil => rfl
    | cons t rest ih => simp only [List.flatMap_cons, brokenForTodo_grepErr, ih]; rfl
  rw [h, List.append_nil]

theorem detectDuplicates_analysisOne (r : TodoCleanupReport) :
    detectDuplicates analysisOne r = r := by
  unfold detectDuplicates
  rw [show dupGroups analysisOne = [] from by decide, List.append_nil]

theorem generateRecommendations_recTypes (report : TodoCleanupReport) :
    ∀ r ∈ (generateRecommendations report).recommendations,
      r ∈ report.recommendations ∨ r.recType = "safe_deletion" ∨
        r.recType = "consolidation" ∨ r.recType = "update_references" := by
  intro r hr
  simp only [generateRecommendations] at hr
  rcases List.mem_append.mp hr with h12 | h3
  · rcases List.mem_append.mp h12 with h01 | h2
    · rcases List.mem_append.mp h01 with h0 | h1
      · exact Or.inl h0
      · right; left
        revert h1
        split
        · intro h1
          simp only [List.mem_singleton] at h1
          rw [h1]
        · intro h1
          exact absurd h1 (List.not_mem_nil r)
    · right; right; left
      revert h2
      split
      · intro h2
        simp only [List.mem_singleton] at h2
        rw [h2]
      · intro h2
        exact absurd h2 (List.not_mem_nil r)
  · right; right; right
    revert h3
    split
    · intro h3
      simp only [List.mem_singleton] at h3
      rw [h3]
    · intro h3
      exact absurd h3 (List.not_mem_nil r)

/-- **C5 (amended).** Every recommendation a successful cleanup run emits
has one of the exact three actions `safe_deletion`, `consolidation`,
`update_references`; no recommendation carries an `investigate` action —
that action does not exist — and records without gathered evidence are
simply not surfaced in any recommendation. -/
theorem cleanup_actions (env : LifecycleEnv) (analysis : CodebaseTodoAnalysis)
    (path : String) (report : TodoCleanupReport)
    (h : analyzeForCleanup env analysis path = .ok report) :
    report.recommendations.all (fun r =>
      (r.recType == "safe_deletion" || r.recType == "consolidation" ||
        r.recType == "update_references") && !(r.recType == "investigate")) = true := by
  unfold analyzeForCleanup at h
  rcases hpack : env.packCodebase path with e | outputId
  · rw [hpack] at h
    simp at h
  · rw [hpack] at h
    simp only [Except.ok.injEq] at h
    subst h
    rw [List.all_eq_true]
    intro r hr
    rcases generateRecommendations_recTypes _ r hr with h0 | h1 | h2 | h3
    · simp only [detectBrokenReferences, detectSuperseded, detectDuplicates,
        detectStaleAndCompleted, initialReport] at h0
      exact absurd h0 (List.not_mem_nil r)
    · rw [h1]
      rfl
    · rw [h2]
      rfl
    · rw [h3]
      rfl

/-- Witness for the C5 theorem: the cleanup run on the empty analysis with
failing grep succeeds and all its recommendations (none) pass the
action check. -/
theorem cleanup_actions_witness :
    reportEmptyW.recommendations.all (fun r =>
      (r.recType == "safe_deletion" || r.recType == "consolidation" ||
        r.recType == "update_references") && !(r.recType == "investigate")) = true :=
  cleanup_actions lifecycleEnvGrepErr analysisEmpty "p" reportEmptyW rfl

/-- **C5 (counterexample).** A cleanup run over one record for which no
evidence is gatherable (every grep fails) completes with an *empty*
recommendation list: the un-evidenced record is not surfaced by any
`investigate` recommendation — no such action exists in the code. -/
theorem cleanup_investigate_counterexample :
    (analyzeForCleanup lifecycleEnvGrepErr analysisOne "proj").map
        (fun r => (r.totalAnalyzed, r.recommendations)) =
      .ok (1, ([] : List CleanupRecommendation)) := by
  rw [show analyzeForCleanup lifecycleEnvGrepErr analysisOne "proj" =
        .ok (generateRecommendations (detectBrokenReferences lifecycleEnvGrepErr "out-1"
          analysisOne (detectSuperseded lifecycleEnvGrepErr "out-1" analysisOne
            (detectDuplicates analysisOne (detectStaleAndCompleted lifecycleEnvGrepErr "out-1"
              analysisOne (initialReport analysisOne)))))) from rfl,
      detectStale_grepErr, detectDuplicates_analysisOne, detectSuperseded_grepErr,
      detectBroken_grepErr]
  rfl

/-- **C1 (amended).** When codebase packing fails, `analyzeComplete`
still returns a well-formed analysis whose codebase contribution is empty
and whose context records are exactly the context extraction's output
(though markdown and semantic sources may still contribute); but
`analyzeForCleanup` does *not* complete: it propagates the failure as an
error wrapped in `TODO cleanup analysis failed:`. -/
theorem packFailure_degradation (env : EnhEnv) (lenv : LifecycleEnv)
    (analysis : CodebaseTodoAnalysis) (projectPath context : String) (e e' : String)
    (hp : env.packCodebase projectPath = .error e)
    (hl : lenv.packCodebase projectPath = .error e') :
    (analyzeComplete env projectPath context).codebaseTodos = [] ∧
    (analyzeComplete env projectPath context).contextTodos = (analyzeTodos context).todos ∧
    analyzeForCleanup lenv analysis projectPath =
      .error ("TODO cleanup analysis failed: " ++ e') := by
  refine ⟨?_, ?_, ?_⟩
  · simp only [analyzeComplete, packProject, hp]
  · simp only [analyzeComplete]
  · simp only [analyzeForCleanup, hl]

/-- Witness for the C1 theorem at a concrete failing-packing environment. -/
theorem packFailure_degradation_witness :
    (analyzeComplete enhEnvC "proj" "ctx").codebaseTodos = [] ∧
    (analyzeComplete enhEnvC "proj" "ctx").contextTodos = (analyzeTodos "ctx").todos ∧
    analyzeForCleanup lifecycleEnvPackErr analysisEmpty "proj" =
      .error ("TODO cleanup analysis failed: " ++ "boom") :=
  packFailure_degradation enhEnvC lifecycleEnvPackErr analysisEmpty "proj" "ctx"
    "boom" "boom" rfl rfl

/-- **C1 (counterexample).** With packing failing but registration and
semantic search available, `analyzeComplete` does not fall back to
context-only results — its validated records are nonempty although the
context contributed nothing — and `analyzeForCleanup` does not complete:
it returns the wrapped packing error. -/
theorem packFailure_counterexample :
    analyzeForCleanup lifecycleEnvPackErr analysisEmpty "proj" =
      .error "TODO cleanup analysis failed: boom" ∧
    (analyzeComplete enhEnvC "proj" "").contextTodos = [] ∧
    (analyzeComplete enhEnvC "proj" "").validatedTodos ≠ [] := by
  refine ⟨rfl, by decide, by decide⟩

end ClaudeTodo
